import Mathlib

/-!
Verification of the openai-media-mcp repository's tool-registration and
dispatch core against its specification.

The repository ships a catalog of tool modules (JSON-schema function
definitions paired with async fetch-wrapper handlers) that an MCP server
registers and dispatches.  The tool modules live under `src/tools` and in
the unnamed source parts; the registry/validator/dispatcher core
(`mcpServer.js`) is not among the provided sources, so those components are
modelled from the specification (each such definition is marked
`Modelled from the spec:`).  Tool-module data (names, schemas, destructuring
patterns, handler control flow up to the first external operation) is
translated directly from the sources.
-/

namespace MediaMcp

/-- JSON values as exchanged between the MCP client, the validator and the
tool handlers.  Numbers are modelled as rationals (JavaScript numbers in
this codebase are small integers and decimals such as 0.85). -/
inductive JsValue where
  | str (s : String)
  | num (q : Rat)
  | bool (b : Bool)
  | null
  | arr (elems : List JsValue)
  | obj (fields : List (String × JsValue))

/-- The primitive kind of a JSON value. -/
inductive JsKind where
  | str | num | bool | null | arr | obj
deriving DecidableEq, Repr

def JsValue.kindOf : JsValue → JsKind
  | .str _ => .str
  | .num _ => .num
  | .bool _ => .bool
  | .null => .null
  | .arr _ => .arr
  | .obj _ => .obj

/-- The six schema kinds of the spec's SchemaNode
(`string, integer, number, boolean, object, array`). -/
inductive SchemaKind where
  | string | integer | number | boolean | object | array
deriving DecidableEq, Repr

/-- Modelled from the spec: `SchemaNode` — recursive structure describing one
of the six kinds, with optional `enum`, inclusive numeric bounds
`minimum`/`maximum`, array bounds `minItems`/`maxItems`, `default` (field
`dflt` here), `required` keys, and child schemas `properties`/`items`.
Source schemas also carry non-semantic metadata (`description`, `format`,
`pattern`) that the spec's validator does not consult; those are omitted. -/
inductive SchemaNode where
  | mk (kind : SchemaKind)
       (enum : Option (List JsValue))
       (minimum maximum : Option Rat)
       (minItems maxItems : Option Nat)
       (dflt : Option JsValue)
       (required : List String)
       (properties : List (String × SchemaNode))
       (items : Option SchemaNode)

def SchemaNode.kind : SchemaNode → SchemaKind
  | .mk k _ _ _ _ _ _ _ _ _ => k

def SchemaNode.enum : SchemaNode → Option (List JsValue)
  | .mk _ e _ _ _ _ _ _ _ _ => e

def SchemaNode.minimum : SchemaNode → Option Rat
  | .mk _ _ lo _ _ _ _ _ _ _ => lo

def SchemaNode.maximum : SchemaNode → Option Rat
  | .mk _ _ _ hi _ _ _ _ _ _ => hi

def SchemaNode.minItems : SchemaNode → Option Nat
  | .mk _ _ _ _ mi _ _ _ _ _ => mi

def SchemaNode.maxItems : SchemaNode → Option Nat
  | .mk _ _ _ _ _ ma _ _ _ _ => ma

def SchemaNode.dflt : SchemaNode → Option JsValue
  | .mk _ _ _ _ _ _ d _ _ _ => d

def SchemaNode.required : SchemaNode → List String
  | .mk _ _ _ _ _ _ _ r _ _ => r

def SchemaNode.properties : SchemaNode → List (String × SchemaNode)
  | .mk _ _ _ _ _ _ _ _ p _ => p

def SchemaNode.items : SchemaNode → Option SchemaNode
  | .mk _ _ _ _ _ _ _ _ _ i => i

/-! ### Sizes

The auto-generated `SizeOf` instances of nested inductives are not
executable, so we define our own structural sizes; they serve as fuel
bounds for the recursive functions below. -/

mutual
def JsValue.size : JsValue → Nat
  | .str _ => 1
  | .num _ => 1
  | .bool _ => 1
  | .null => 1
  | .arr xs => 1 + sizeList xs
  | .obj fs => 1 + sizeFields fs
def sizeList : List JsValue → Nat
  | [] => 1
  | x :: xs => 1 + x.size + sizeList xs
def sizeFields : List (String × JsValue) → Nat
  | [] => 1
  | (_, v) :: fs => 1 + v.size + sizeFields fs
end

mutual
def SchemaNode.size : SchemaNode → Nat
  | .mk _ _ _ _ _ _ _ _ props itms =>
      1 + sizeProps props + (match itms with | some i => i.size | none => 0)
def sizeProps : List (String × SchemaNode) → Nat
  | [] => 1
  | (_, c) :: ps => 1 + c.size + sizeProps ps
end

/-! ### Deep equality of JSON values

Fuel-indexed structural equality (JavaScript deep equality, as an
`enum`-membership test would use).  The fuel is a termination device only;
`jsEq` always supplies enough. -/

mutual
def jsEqF : Nat → JsValue → JsValue → Bool
  | 0, _, _ => false
  | f+1, a, b =>
    match a, b with
    | .str s, .str t => s == t
    | .num p, .num q => p == q
    | .bool x, .bool y => x == y
    | .null, .null => true
    | .arr xs, .arr ys => jsEqListF f xs ys
    | .obj fs, .obj gs => jsEqFieldsF f fs gs
    | _, _ => false
def jsEqListF : Nat → List JsValue → List JsValue → Bool
  | 0, _, _ => false
  | _, [], [] => true
  | f+1, x :: xs, y :: ys => jsEqF f x y && jsEqListF f xs ys
  | _, _, _ => false
def jsEqFieldsF : Nat → List (String × JsValue) → List (String × JsValue) → Bool
  | 0, _, _ => false
  | _, [], [] => true
  | f+1, (k, x) :: xs, (l, y) :: ys =>
      k == l && jsEqF f x y && jsEqFieldsF f xs ys
  | _, _, _ => false
end

def jsEq (a b : JsValue) : Bool := jsEqF a.size a b

/-! ### Schema validator

Modelled from the spec: `validate(schema, rawArgs) -> NormalizedArgs |
ValidationError` (§4.2).  Depth-first walk matching the value against the
schema; missing required key, type mismatch, enum violation, numeric range
and array-length violations produce structured errors; a missing key with a
`default` has the default substituted; unknown keys pass through unchanged;
validation stops at the first error in property-declaration order. -/

/-- Structured validation failure.  `path` is the chain of object keys
(and array indices, rendered as decimal strings) from the root to the
offending position.  `depthExceeded` is an artifact of the fuel-indexed
presentation and never occurs when the fuel bound is respected. -/
inductive VErr where
  | missingField (path : List String)
  | typeMismatch (path : List String) (expected : SchemaKind) (actual : JsKind)
  | invalidEnum (path : List String) (allowed : List JsValue)
  | outOfRange (path : List String) (lo hi : Option Rat)
  | invalidLength (path : List String) (lo hi : Option Nat)
  | depthExceeded

/-- Prepend one path segment to a validation error's path. -/
def VErr.prep (seg : String) : VErr → VErr
  | .missingField p => .missingField (seg :: p)
  | .typeMismatch p e a => .typeMismatch (seg :: p) e a
  | .invalidEnum p es => .invalidEnum (seg :: p) es
  | .outOfRange p lo hi => .outOfRange (seg :: p) lo hi
  | .invalidLength p lo hi => .invalidLength (seg :: p) lo hi
  | .depthExceeded => .depthExceeded

/-- Does a JSON value's kind agree with a schema kind?  `integer` accepts
exactly the integral numbers (JavaScript `Number.isInteger`). -/
def kindMatches : SchemaKind → JsValue → Bool
  | .string, .str _ => true
  | .integer, .num q => q.den == 1
  | .number, .num _ => true
  | .boolean, .bool _ => true
  | .object, .obj _ => true
  | .array, .arr _ => true
  | _, _ => false

/-- Inclusive numeric bounds check (`minimum`/`maximum`). -/
def boundsOK (lo hi : Option Rat) (q : Rat) : Bool :=
  (match lo with | some l => decide (l ≤ q) | none => true) &&
  (match hi with | some h => decide (q ≤ h) | none => true)

/-- Inclusive array-length bounds check (`minItems`/`maxItems`). -/
def lenOK (lo hi : Option Nat) (n : Nat) : Bool :=
  (match lo with | some l => decide (l ≤ n) | none => true) &&
  (match hi with | some h => decide (n ≤ h) | none => true)

/-- Replace, in an object's field list, every field whose key has a
computed normalized value in `repl` by that value; other fields pass
through unchanged. -/
def applyRepl (repl : List (String × JsValue)) :
    List (String × JsValue) → List (String × JsValue) :=
  List.map (fun p =>
    match List.lookup p.1 repl with
    | some v' => (p.1, v')
    | none => p)

mutual
/-- Fuel-indexed validator core; `validate` below supplies sufficient
fuel.  On success returns the normalized value.  Checks run in spec order:
kind, then enum, then bounds/lengths, then recursion into children. -/
def validateF : Nat → SchemaNode → JsValue → Except VErr JsValue
  | 0, _, _ => .error .depthExceeded
  | f+1, .mk kind en lo hi minI maxI _ req props itms, v =>
    if kindMatches kind v then
      if (match en with | some es => es.any (jsEq v) | none => true) then
        match v with
        | .num q =>
          if boundsOK lo hi q then .ok (.num q)
          else .error (.outOfRange [] lo hi)
        | .str s => .ok (.str s)
        | .bool b => .ok (.bool b)
        | .null => .ok .null
        | .arr xs =>
          if lenOK minI maxI xs.length then
            match itms with
            | some item =>
              match validateItemsF f item xs 0 with
              | .error e => .error e
              | .ok ys => .ok (.arr ys)
            | none => .ok (.arr xs)
          else .error (.invalidLength [] minI maxI)
        | .obj fields =>
          match validatePropsF f props req fields with
          | .error e => .error e
          | .ok (repl, filled) => .ok (.obj (applyRepl repl fields ++ filled))
      else .error (.invalidEnum [] (en.getD []))
    else .error (.typeMismatch [] kind v.kindOf)
/-- Walk the declared properties in declaration order against the supplied
fields.  Returns the association list of normalized values for the present
declared keys together with the defaults filled in for absent keys. -/
def validatePropsF : Nat → List (String × SchemaNode) → List String →
    List (String × JsValue) →
    Except VErr (List (String × JsValue) × List (String × JsValue))
  | 0, _, _, _ => .error .depthExceeded
  | _+1, [], _, _ => .ok ([], [])
  | f+1, (k, c) :: ps, req, fields =>
    match List.lookup k fields with
    | some w =>
      match validateF f c w with
      | .error e => .error (e.prep k)
      | .ok w' =>
        match validatePropsF f ps req fields with
        | .error e => .error e
        | .ok (r, d) => .ok ((k, w') :: r, d)
    | none =>
      if k ∈ req then .error (.missingField [k])
      else
        match c.dflt with
        | some d =>
          match validatePropsF f ps req fields with
          | .error e => .error e
          | .ok (r, ds) => .ok (r, (k, d) :: ds)
        | none => validatePropsF f ps req fields
/-- Validate each array element against the `items` schema, tracking the
element index for error paths. -/
def validateItemsF : Nat → SchemaNode → List JsValue → Nat →
    Except VErr (List JsValue)
  | 0, _, _, _ => .error .depthExceeded
  | _+1, _, [], _ => .ok []
  | f+1, item, x :: xs, idx =>
    match validateF f item x with
    | .error e => .error (e.prep (toString idx))
    | .ok y =>
      match validateItemsF f item xs (idx + 1) with
      | .error e => .error e
      | .ok ys => .ok (y :: ys)
end

/-- Modelled from the spec: the Schema Validator's entry point
`validate(schema, rawArgs)`.  The fuel is a presentation device; the bound
`schema.size + value.size` always suffices (`validateF_fuelIrrel`). -/
def validate (s : SchemaNode) (v : JsValue) : Except VErr JsValue :=
  validateF (s.size + v.size) s v

/-- Canonical (fuel-saturated) property walk. -/
def validateProps (props : List (String × SchemaNode)) (req : List String)
    (fields : List (String × JsValue)) :
    Except VErr (List (String × JsValue) × List (String × JsValue)) :=
  validatePropsF (sizeProps props + sizeFields fields) props req fields

/-- Canonical (fuel-saturated) element walk. -/
def validateItems (item : SchemaNode) (xs : List JsValue) (idx : Nat) :
    Except VErr (List JsValue) :=
  validateItemsF (item.size + sizeList xs) item xs idx

/-! ### Declarative normalization

`normSpec` restates, as a pure transformation with no error checking, what
the spec says the validator's successful output is: "the argument object
with each omitted field that has a declared `default` bound to that default
value and all other fields structurally unchanged", applied at every depth.
It is written from the spec's words and compared with `validate`'s output
in the claim-C5 theorem. -/

/-- Defaults to fill in: for each declared property, in declaration order,
whose key is absent from the fields and which declares a `default`, the
pair of that key and the default value. -/
def fillDefaults : List (String × SchemaNode) → List (String × JsValue) →
    List (String × JsValue)
  | [], _ => []
  | (k, c) :: ps, fields =>
    match List.lookup k fields with
    | some _ => fillDefaults ps fields
    | none =>
      match c.dflt with
      | some d => (k, d) :: fillDefaults ps fields
      | none => fillDefaults ps fields

/-- Normalize each field occurrence with the supplied child normalizer:
a field whose key is declared is replaced by the normalized value of that
key's binding (the first occurrence, as an object lookup would see it);
undeclared fields pass through unchanged. -/
def normFields (g : SchemaNode → JsValue → JsValue)
    (props : List (String × SchemaNode)) (fields : List (String × JsValue)) :
    List (String × JsValue) → List (String × JsValue) :=
  List.map (fun p =>
    match List.lookup p.1 props with
    | some c => (p.1, g c ((List.lookup p.1 fields).getD p.2))
    | none => p)

/-- Fuel-indexed core of `normSpec`; the bound `value.size` always
suffices. -/
def normSpecF : Nat → SchemaNode → JsValue → JsValue
  | 0, _, v => v
  | f+1, s, v =>
    match v with
    | .obj fields =>
      .obj (normFields (normSpecF f) s.properties fields fields ++
            fillDefaults s.properties fields)
    | .arr xs =>
      match s.items with
      | some item => .arr (xs.map (normSpecF f item))
      | none => .arr xs
    | w => w

/-- Declarative normalization: the input value with every declared
default filled in for an omitted key, at every depth, and everything else
structurally unchanged. -/
def normSpec (s : SchemaNode) (v : JsValue) : JsValue :=
  normSpecF v.size s v

/-- The normalized values the property walk computes for the present
declared keys, in declaration order (used to characterize `validate`'s
output). -/
def replSpec : List (String × SchemaNode) → List (String × JsValue) →
    List (String × JsValue)
  | [], _ => []
  | (k, c) :: ps, fields =>
    match List.lookup k fields with
    | some w => (k, normSpec c w) :: replSpec ps fields
    | none => replSpec ps fields

/-! ### Schema well-formedness

JSON-schema objects have pairwise-distinct property keys, enums are used
on scalar nodes, and a declared `default` is itself a valid instance of
its node.  Every schema in this repository satisfies all three (proved by
evaluation in the claim-C5 theorem).  The idempotence half of claim C5
fails without them (see the claim-C5 counterexample). -/

mutual
/-- Fuel-indexed well-formedness check; the bound `schema.size` always
suffices. -/
def wfF : Nat → SchemaNode → Bool
  | 0, _ => false
  | f+1, .mk kind en lo hi minI maxI dflt req props itms =>
    (!(kind == .object || kind == .array) || en.isNone) &&
    decide ((props.map Prod.fst).Nodup) &&
    (match dflt with
     | some d =>
       match validate (.mk kind en lo hi minI maxI dflt req props itms) d with
       | .ok d' => jsEq d' d
       | .error _ => false
     | none => true) &&
    wfPropsF f props &&
    (match itms with | some i => wfF f i | none => true)
def wfPropsF : Nat → List (String × SchemaNode) → Bool
  | 0, _ => false
  | _+1, [] => true
  | f+1, (_, c) :: ps => wfF f c && wfPropsF f ps
end

/-- A schema is well-formed when at every node the property keys are
pairwise distinct, container nodes carry no `enum`, and any declared
`default` validates to itself. -/
def schemaWF (s : SchemaNode) : Prop := wfF s.size s = true

/-! ### Registry and Dispatcher

Modelled from the spec (§4.1, §4.3): the registry/dispatcher core
(`mcpServer.js`) is not among the provided sources, so it is modelled from
the specification.  A handler is opaque to the core: invoked on the
normalized arguments, it either resolves to a value or raises
(a rejected promise / thrown exception). -/

/-- The outcome of awaiting a tool handler: the promise resolves to a
value, or the invocation raises (rejects/throws) with a message. -/
inductive HandlerOutcome where
  | resolved (v : JsValue)
  | thrown (msg : String)

/-- Modelled from the spec: `ToolDescriptor` — a unique name, a
human-readable description, a JSON-schema parameter contract, and an
executable handler. -/
structure ToolDescriptor where
  name : String
  description : String
  parameterSchema : SchemaNode
  handler : JsValue → HandlerOutcome

/-- The registry's state: descriptors in registration order. -/
abbrev Registry := List ToolDescriptor

/-- Registration failure. -/
inductive RegErr where
  | duplicateToolName
deriving DecidableEq

/-- Modelled from the spec: `register(descriptor)` fails with
`DuplicateToolName` if a descriptor with the same name already exists;
otherwise inserts (at the end, preserving registration order). -/
def register (r : Registry) (d : ToolDescriptor) : Except RegErr Registry :=
  if d.name ∈ r.map ToolDescriptor.name then .error .duplicateToolName
  else .ok (r ++ [d])

/-- Registry states reachable from the empty registry by successful
`register` calls (a failed `register` returns an error and leaves the
state untouched, so it does not appear as a step). -/
inductive Reachable : Registry → Prop where
  | nil : Reachable []
  | step {r r' : Registry} {d : ToolDescriptor} :
      Reachable r → register r d = .ok r' → Reachable r'

/-- The outward projection of a descriptor: name, description and schema
only — by construction this record has no handler field. -/
structure ToolSummary where
  name : String
  description : String
  parameterSchema : SchemaNode

/-- Modelled from the spec: `describeTools()` returns the registry's
descriptors projected to `{name, description, parameterSchema}`; no
handler is exposed outward. -/
def describeTools (r : Registry) : List ToolSummary :=
  r.map (fun d => ⟨d.name, d.description, d.parameterSchema⟩)

/-- Modelled from the spec: `CallRequest` — tool name plus a JSON
argument object. -/
structure CallRequest where
  toolName : String
  arguments : List (String × JsValue)

/-- Error codes of the call-result envelope. -/
inductive ErrorKind where
  | toolNotFound
  | invalidArguments
  | handlerFailed
deriving DecidableEq

/-- Modelled from the spec: `CallResult` — discriminated union of a
success value and a structured error with stable code and message. -/
inductive CallResult where
  | success (value : JsValue)
  | error (code : ErrorKind) (message : String)

/-- Human-readable rendering of a validation error for the
`InvalidArguments` envelope. -/
def VErr.message : VErr → String
  | .missingField p => "MissingField: " ++ String.intercalate "." p
  | .typeMismatch p _ _ => "TypeMismatch: " ++ String.intercalate "." p
  | .invalidEnum p _ => "InvalidEnum: " ++ String.intercalate "." p
  | .outOfRange p _ _ => "OutOfRange: " ++ String.intercalate "." p
  | .invalidLength p _ _ => "InvalidLength: " ++ String.intercalate "." p
  | .depthExceeded => "DepthExceeded"

/-- Modelled from the spec: `Dispatcher.call` — resolve the tool by name
(`ToolNotFound` envelope if absent), validate the arguments against the
descriptor's schema (`InvalidArguments` envelope on failure), invoke the
handler on the normalized arguments inside an isolation boundary
(`HandlerFailed` envelope if it raises), and wrap a resolved value as a
success envelope.  Total by construction: every call returns a
`CallResult`, never an exception. -/
def Dispatcher.call (r : Registry) (req : CallRequest) : CallResult :=
  match r.find? (fun d => d.name == req.toolName) with
  | none => .error .toolNotFound ("Tool not found: " ++ req.toolName)
  | some d =>
    match validate d.parameterSchema (.obj req.arguments) with
    | .error e => .error .invalidArguments e.message
    | .ok normArgs =>
      match d.handler normArgs with
      | .resolved v => .success v
      | .thrown msg => .error .handlerFailed msg

/-- A sequence of independent calls against a fixed registry (the
dispatcher is stateless across calls, §4.3); used to express that the
dispatcher remains alive after a handler failure. -/
def Dispatcher.callAll (r : Registry) (reqs : List CallRequest) :
    List CallResult :=
  reqs.map (Dispatcher.call r)

/-! ### Tool modules

The static data of every `apiTool` object in the sources: declared name,
description, parameter schema, and the handler's destructuring pattern
(parameter name together with its destructuring default, if any).
Non-semantic schema metadata (`description`, `format`, `pattern` strings)
is omitted; see `SchemaNode`. -/

/-- One source `apiTool`: its `definition.function` data plus the
argument-destructuring pattern of its `executeFunction`. -/
structure ToolModule where
  name : String
  description : String
  parameters : SchemaNode
  pattern : List (String × Option JsValue)

/-- Schema-literal helpers (plain string node). -/
def sStr : SchemaNode := .mk .string none none none none none none [] [] none

/-- String node with enum and default. -/
def sStrE (es : List String) (d : String) : SchemaNode :=
  .mk .string (some (es.map JsValue.str)) none none none none
    (some (.str d)) [] [] none

/-- String node with enum, no default. -/
def sStrEnd (es : List String) : SchemaNode :=
  .mk .string (some (es.map JsValue.str)) none none none none none [] [] none

/-- Integer node with inclusive bounds and default. -/
def sIntR (lo hi d : Int) : SchemaNode :=
  .mk .integer none (some (lo : Rat)) (some (hi : Rat)) none none
    (some (.num (d : Rat))) [] [] none

/-- Number node with inclusive bounds and default. -/
def sNumR (lo hi d : Rat) : SchemaNode :=
  .mk .number none (some lo) (some hi) none none (some (.num d)) [] [] none

/-- Boolean node with default. -/
def sBoolD (b : Bool) : SchemaNode :=
  .mk .boolean none none none none none (some (.bool b)) [] [] none

/-- Object node with properties and required keys. -/
def sObj (props : List (String × SchemaNode)) (req : List String) :
    SchemaNode :=
  .mk .object none none none none none none req props none

/-- Array node with item schema and optional length bounds. -/
def sArr (item : SchemaNode) (lo hi : Option Nat) : SchemaNode :=
  .mk .array none none none lo hi none [] [] (some item)

/-- The Luma aspect-ratio enum shared by the Luma tools. -/
def aspectEnum : List String := ["1:1", "3:4", "4:3", "9:16", "16:9", "9:21", "21:9"]

/-- `src/unnamed/part_000`: `GenerateImage` (OpenAI images API,
gpt-image-1 era). -/
def part000GenerateImage : ToolModule where
  name := "GenerateImage"
  description := "Generate an image using OpenAI's DALL-E API."
  parameters := sObj
    [("prompt", sStr),
     ("model", sStrE ["dall-e-2", "dall-e-3", "gpt-image-1"] "gpt-image-1"),
     ("n", sIntR 1 10 1),
     ("quality", sStrE ["standard", "hd", "auto"] "auto"),
     ("response_format", sStrE ["url", "b64_json"] "url"),
     ("size", sStrE ["256x256", "512x512", "1024x1024", "1792x1024", "1024x1792"]
        "1024x1024"),
     ("style", sStrE ["vivid", "natural"] "vivid"),
     ("user", sStr),
     ("background", sStrE ["transparent", "opaque", "auto"] "auto"),
     ("moderation", sStrE ["low", "auto"] "auto"),
     ("output_compression", sIntR 0 100 100),
     ("output_format", sStrE ["png", "jpeg", "webp"] "png")]
    ["prompt"]
  pattern :=
    [("prompt", none), ("model", some (.str "gpt-image-1")),
     ("n", some (.num 1)), ("quality", some (.str "auto")),
     ("response_format", some (.str "url")),
     ("size", some (.str "1024x1024")), ("style", some (.str "vivid")),
     ("user", none), ("background", some (.str "auto")),
     ("moderation", some (.str "auto")),
     ("output_compression", some (.num 100)),
     ("output_format", some (.str "png"))]

/-- `src/unnamed/part_001`: `GenerateImage` (OpenAI images API,
dall-e-3 era). -/
def part001GenerateImage : ToolModule where
  name := "GenerateImage"
  description := "Generate an image using OpenAI's DALL-E API."
  parameters := sObj
    [("prompt", sStr),
     ("model", sStrE ["dall-e-2", "dall-e-3"] "dall-e-3"),
     ("n", sIntR 1 10 1),
     ("quality", sStrE ["standard", "hd"] "standard"),
     ("response_format", sStrE ["url", "b64_json"] "url"),
     ("size", sStrE ["256x256", "512x512", "1024x1024", "1792x1024", "1024x1792"]
        "1024x1024"),
     ("style", sStrE ["vivid", "natural"] "vivid"),
     ("user", sStr)]
    ["prompt"]
  pattern :=
    [("prompt", none), ("model", some (.str "dall-e-3")),
     ("n", some (.num 1)), ("quality", some (.str "standard")),
     ("response_format", some (.str "url")),
     ("size", some (.str "1024x1024")), ("style", some (.str "vivid")),
     ("user", none)]

/-- `src/unnamed/part_002` (first module): `GenerateImage` (Luma,
workspace variant; schema has no enums or defaults). -/
def part002GenerateImage : ToolModule where
  name := "GenerateImage"
  description := "Generate an image using the Luma Video Generation API."
  parameters := sObj
    [("prompt", sStr), ("model", sStr), ("aspect_ratio", sStr)]
    ["prompt"]
  pattern :=
    [("prompt", none), ("model", some (.str "photon-flash-1")),
     ("aspect_ratio", some (.str "16:9"))]

/-- `src/unnamed/part_002` (second module): `GetGeneration`. -/
def part002GetGeneration : ToolModule where
  name := "GetGeneration"
  description := "Get a specific generation by ID from the Luma API."
  parameters := sObj [("generation_id", sStr)] ["generation_id"]
  pattern := [("generation_id", none)]

/-- `src/unnamed/part_003` (first module):
`GenerateImageWithReference`. -/
def part003GenerateImageWithReference : ToolModule where
  name := "GenerateImageWithReference"
  description := "Generate an image with reference images using the Luma API. Use up to 4 reference images to guide the generation."
  parameters := sObj
    [("prompt", sStr),
     ("image_ref",
        sArr (sObj [("url", sStr), ("weight", sNumR 0 1 (mkRat 17 20))] ["url"])
          (some 1) (some 4)),
     ("model", sStrE ["photon-1", "photon-flash-1"] "photon-flash-1"),
     ("aspect_ratio", sStrE aspectEnum "16:9")]
    ["prompt", "image_ref"]
  pattern :=
    [("prompt", none), ("image_ref", none),
     ("model", some (.str "photon-flash-1")),
     ("aspect_ratio", some (.str "16:9"))]

/-- `src/unnamed/part_003` (second module):
`GenerateImageWithCharacter`. -/
def part003GenerateImageWithCharacter : ToolModule where
  name := "GenerateImageWithCharacter"
  description := "Generate an image with character reference using the Luma API. Create consistent and personalized characters using up to 4 reference images."
  parameters := sObj
    [("prompt", sStr),
     ("character_ref",
        sObj [("identity0",
                 sObj [("images", sArr sStr (some 1) (some 4))] ["images"])]
          ["identity0"]),
     ("model", sStrE ["photon-1", "photon-flash-1"] "photon-flash-1"),
     ("aspect_ratio", sStrE aspectEnum "16:9")]
    ["prompt", "character_ref"]
  pattern :=
    [("prompt", none), ("character_ref", none),
     ("model", some (.str "photon-flash-1")),
     ("aspect_ratio", some (.str "16:9"))]

/-- `src/tools/my-workspace/luma-video-generation/generate-image.js`:
`GenerateImage` (Luma). -/
def lumaGenerateImage : ToolModule where
  name := "GenerateImage"
  description := "Generate an image using the Luma Video Generation API."
  parameters := sObj
    [("prompt", sStr),
     ("model", sStrE ["photon-1", "photon-flash-1"] "photon-flash-1"),
     ("aspect_ratio", sStrE aspectEnum "16:9")]
    ["prompt"]
  pattern :=
    [("prompt", none), ("model", some (.str "photon-flash-1")),
     ("aspect_ratio", some (.str "16:9"))]

/-- `src/tools/my-workspace/luma-video-generation/generate-image-with-style.js`. -/
def lumaGenerateImageWithStyle : ToolModule where
  name := "GenerateImageWithStyle"
  description := "Generate an image with style reference using the Luma API. Apply specific artistic styles to your generation."
  parameters := sObj
    [("prompt", sStr),
     ("style_ref",
        sArr (sObj [("url", sStr), ("weight", sNumR 0 1 (mkRat 4 5))] ["url"])
          (some 1) none),
     ("model", sStrE ["photon-1", "photon-flash-1"] "photon-flash-1"),
     ("aspect_ratio", sStrE aspectEnum "16:9")]
    ["prompt", "style_ref"]
  pattern :=
    [("prompt", none), ("style_ref", none),
     ("model", some (.str "photon-flash-1")),
     ("aspect_ratio", some (.str "16:9"))]

/-- `src/tools/my-workspace/luma-video-generation/modify-image.js`. -/
def lumaModifyImage : ToolModule where
  name := "ModifyImage"
  description := "Modify an existing image using the Luma API. Refine images by prompting what changes you want to make. Works well for changing objects/shapes but may need lower weight (0.0-0.1) for color changes."
  parameters := sObj
    [("prompt", sStr),
     ("modify_image_ref",
        sObj [("url", sStr), ("weight", sNumR 0 1 1)] ["url"]),
     ("model", sStrE ["photon-1", "photon-flash-1"] "photon-flash-1"),
     ("aspect_ratio", sStrE aspectEnum "16:9")]
    ["prompt", "modify_image_ref"]
  pattern :=
    [("prompt", none), ("modify_image_ref", none),
     ("model", some (.str "photon-flash-1")),
     ("aspect_ratio", some (.str "16:9"))]

/-- `src/tools/my-workspace/luma-video-generation/generate-video.js`. -/
def lumaGenerateVideo : ToolModule where
  name := "GenerateVideo"
  description := "Generate a video using the Luma Video Generation API."
  parameters := sObj
    [("prompt", sStr),
     ("model", sStrE ["ray-1-6", "ray-2", "ray-flash-2"] "ray-flash-2"),
     ("aspect_ratio", sStrE aspectEnum "16:9"),
     ("resolution", sStrE ["540p", "720p", "1080p", "4k"] "720p"),
     ("duration", sNumR 1 10 5),
     ("loop", sBoolD false)]
    ["prompt"]
  pattern :=
    [("prompt", none), ("model", some (.str "ray-flash-2")),
     ("aspect_ratio", some (.str "16:9")),
     ("resolution", some (.str "720p")), ("duration", some (.num 5)),
     ("loop", some (.bool false))]

/-- `src/tools/my-workspace/luma-video-generation/generate-video-from-image.js`. -/
def lumaGenerateVideoFromImage : ToolModule where
  name := "GenerateVideoFromImage"
  description := "Generate a video from an image using the Luma Video Generation API."
  parameters := sObj
    [("prompt", sStr),
     ("keyframe_url", sStr),
     ("model", sStrE ["ray-1-6", "ray-2", "ray-flash-2"] "ray-flash-2"),
     ("aspect_ratio", sStrE aspectEnum "16:9"),
     ("resolution", sStrE ["540p", "720p", "1080p", "4k"] "720p"),
     ("duration", sNumR 1 10 5),
     ("loop", sBoolD false)]
    ["prompt", "keyframe_url"]
  pattern :=
    [("prompt", none), ("keyframe_url", none),
     ("model", some (.str "ray-flash-2")),
     ("aspect_ratio", some (.str "16:9")),
     ("resolution", some (.str "720p")), ("duration", some (.num 5)),
     ("loop", some (.bool false))]

/-- `src/tools/my-workspace/luma-video-generation/list-generations.js`
(`executeFunction` takes no arguments). -/
def lumaListGenerations : ToolModule where
  name := "list_generations"
  description := "List video generations from the Luma API."
  parameters := sObj [] []
  pattern := []

/-- `src/tools/my-workspace/luma-video-generation/delete-generation.js`. -/
def lumaDeleteGeneration : ToolModule where
  name := "DeleteGeneration"
  description := "Delete a generation by ID from the Luma API."
  parameters := sObj [("generation_id", sStr)] ["generation_id"]
  pattern := [("generation_id", none)]

/-- `src/tools/openai-files/upload-file.js` (first module): `UploadFile`. -/
def openaiUploadFile : ToolModule where
  name := "UploadFile"
  description := "Upload a file to OpenAI's Files API."
  parameters := sObj
    [("file_path", sStr),
     ("purpose", sStrE ["assistants", "fine-tune", "batch"] "assistants")]
    ["file_path"]
  pattern := [("file_path", none), ("purpose", some (.str "assistants"))]

/-- `src/tools/openai-files/upload-file.js` (second module):
`RetrieveFileContent`. -/
def openaiRetrieveFileContent : ToolModule where
  name := "RetrieveFileContent"
  description := "Retrieve file content from OpenAI's Files API."
  parameters := sObj [("file_id", sStr)] ["file_id"]
  pattern := [("file_id", none)]

/-- `src/tools/openai-files/upload-file.js` (third module):
`RetrieveFile`. -/
def openaiRetrieveFile : ToolModule where
  name := "RetrieveFile"
  description := "Retrieve file information from OpenAI's Files API."
  parameters := sObj [("file_id", sStr)] ["file_id"]
  pattern := [("file_id", none)]

/-- `src/tools/openai-files/list-files.js`: `ListFiles`. -/
def openaiListFiles : ToolModule where
  name := "ListFiles"
  description := "List files from OpenAI's Files API."
  parameters := sObj
    [("purpose", sStrEnd ["assistants", "fine-tune", "batch"]),
     ("limit", sIntR 1 10000 20),
     ("after", sStr),
     ("before", sStr)]
    []
  pattern :=
    [("purpose", none), ("limit", some (.num 20)), ("after", none),
     ("before", none)]

/-- `src/tools/openai-files/delete-file.js`: `DeleteFile`. -/
def openaiDeleteFile : ToolModule where
  name := "DeleteFile"
  description := "Delete a file from OpenAI's Files API."
  parameters := sObj [("file_id", sStr)] ["file_id"]
  pattern := [("file_id", none)]

/-- `src/tools/openai-image-generation/edit-image.js` (first module):
`EditImage`. -/
def openaiEditImage : ToolModule where
  name := "EditImage"
  description := "Edit an image using OpenAI's DALL-E API."
  parameters := sObj
    [("image", sStr),
     ("prompt", sStr),
     ("mask", sStr),
     ("model", sStrE ["dall-e-2", "gpt-image-1"] "gpt-image-1"),
     ("n", sIntR 1 10 1),
     ("response_format", sStrE ["url", "b64_json"] "url"),
     ("size", sStrE ["256x256", "512x512", "1024x1024"] "1024x1024"),
     ("user", sStr)]
    ["image", "prompt"]
  pattern :=
    [("image", none), ("prompt", none), ("mask", none),
     ("model", some (.str "gpt-image-1")), ("n", some (.num 1)),
     ("response_format", some (.str "url")),
     ("size", some (.str "1024x1024")), ("user", none)]

/-- `src/tools/openai-image-generation/edit-image.js` (second module):
`CreateImageVariation`. -/
def openaiCreateImageVariation : ToolModule where
  name := "CreateImageVariation"
  description := "Create variations of an image using OpenAI's DALL-E API."
  parameters := sObj
    [("image", sStr),
     ("model", sStrE ["dall-e-2"] "dall-e-2"),
     ("n", sIntR 1 10 1),
     ("response_format", sStrE ["url", "b64_json"] "url"),
     ("size", sStrE ["256x256", "512x512", "1024x1024"] "1024x1024"),
     ("user", sStr)]
    ["image"]
  pattern :=
    [("image", none), ("model", some (.str "dall-e-2")),
     ("n", some (.num 1)), ("response_format", some (.str "url")),
     ("size", some (.str "1024x1024")), ("user", none)]

/-- Every `apiTool` module shipped in the sources. -/
def allToolModules : List ToolModule :=
  [part000GenerateImage, part001GenerateImage, part002GenerateImage,
   part002GetGeneration, part003GenerateImageWithReference,
   part003GenerateImageWithCharacter, lumaGenerateImage,
   lumaGenerateImageWithStyle, lumaModifyImage, lumaGenerateVideo,
   lumaGenerateVideoFromImage, lumaListGenerations, lumaDeleteGeneration,
   openaiUploadFile, openaiRetrieveFileContent, openaiRetrieveFile,
   openaiListFiles, openaiDeleteFile, openaiEditImage,
   openaiCreateImageVariation]

/-! ### Handler bodies

Each `executeFunction` is modelled as a pure function of the process
environment and the argument object, describing the handler's behavior up
to its first external operation: it either returns a value outright
(`.ret`, reached before any network or file-system access), or proceeds to
an HTTP fetch (`.fetch` with the request it issues), or reaches some other
external operation (`.external`, e.g. a file-system probe or multipart
form construction).  Everything past that first external operation depends
on I/O results and is outside the model, as the spec treats handlers as
opaque capability providers. -/

/-- The provider API-key environment variables read by the handlers under
`src/tools`. -/
inductive EnvVar where
  | API_KEY
  | LUMA_API_KEY
deriving DecidableEq

def EnvVar.varName : EnvVar → String
  | .API_KEY => "API_KEY"
  | .LUMA_API_KEY => "LUMA_API_KEY"

/-- The process environment as the handlers see it. -/
structure Env where
  apiKey : Option String
  lumaApiKey : Option String

def Env.get (e : Env) : EnvVar → Option String
  | .API_KEY => e.apiKey
  | .LUMA_API_KEY => e.lumaApiKey

/-- JavaScript truthiness of a possibly-unset environment string
(`if (!token)` fires on an unset or empty variable). -/
def truthy : Option String → Bool
  | none => false
  | some s => !(s == "")

/-- JavaScript truthiness of a possibly-undefined JSON value. -/
def jsTruthy : Option JsValue → Bool
  | none => false
  | some (.str s) => !(s == "")
  | some (.num q) => !(q == 0)
  | some (.bool b) => b
  | some .null => false
  | some (.arr _) => true
  | some (.obj _) => true

/-- A handler's behavior up to its first external operation. -/
inductive PreFetch where
  | ret (v : JsValue)
  | fetch (url method : String) (body : Option JsValue)
  | external (op : String)

/-- `{error: msg}` result object. -/
def errObj (msg : String) : JsValue := .obj [("error", .str msg)]

/-- A JSON-body field that `JSON.stringify` keeps only when the value is
defined. -/
def optPair (k : String) (o : Option JsValue) : List (String × JsValue) :=
  match o with
  | some v => [(k, v)]
  | none => []

/-- JavaScript string coercion as used in template literals.  Exact for
the strings, integers, booleans, `null` and `undefined` that actually
occur; the remaining cases are inessential approximations (no claim
depends on them). -/
def jsToStr : JsValue → String
  | .str s => s
  | .num q => if q.den = 1 then toString q.num else toString q
  | .bool b => cond b "true" "false"
  | .null => "null"
  | .arr _ => "[array]"
  | .obj _ => "[object Object]"

/-- Template-literal interpolation of a possibly-undefined value. -/
def jsToStrOpt : Option JsValue → String
  | some v => jsToStr v
  | none => "undefined"

/-- `src/tools/my-workspace/luma-video-generation/generate-image.js`:
key guard, then POST of `{prompt, model, aspect_ratio}`. -/
def lumaGenerateImageExec (env : Env) (args : List (String × JsValue)) :
    PreFetch :=
  let prompt := List.lookup "prompt" args
  let model := (List.lookup "model" args).getD (.str "photon-flash-1")
  let ar := (List.lookup "aspect_ratio" args).getD (.str "16:9")
  if truthy env.lumaApiKey then
    .fetch "https://api.lumalabs.ai/dream-machine/v1/generations/image" "POST"
      (some (.obj (optPair "prompt" prompt ++
        [("model", model), ("aspect_ratio", ar)])))
  else .ret (errObj "LUMA_API_KEY environment variable is not set.")

/-- `generate-image-with-style.js`: key guard, then the handler's own
`style_ref` array check, then POST. -/
def lumaGenerateImageWithStyleExec (env : Env)
    (args : List (String × JsValue)) : PreFetch :=
  let prompt := List.lookup "prompt" args
  let styleRef := List.lookup "style_ref" args
  let model := (List.lookup "model" args).getD (.str "photon-flash-1")
  let ar := (List.lookup "aspect_ratio" args).getD (.str "16:9")
  if truthy env.lumaApiKey then
    if (match styleRef with
        | some (.arr xs) => decide (1 ≤ xs.length)
        | _ => false) then
      .fetch "https://api.lumalabs.ai/dream-machine/v1/generations/image" "POST"
        (some (.obj (optPair "prompt" prompt ++ optPair "style_ref" styleRef ++
          [("model", model), ("aspect_ratio", ar)])))
    else .ret (errObj "style_ref must be an array with at least one style reference image.")
  else .ret (errObj "LUMA_API_KEY environment variable is not set.")

/-- `modify-image.js`: key guard, then the handler's own
`modify_image_ref` object check (`!ref || typeof ref !== 'object' ||
!ref.url`), then POST. -/
def lumaModifyImageExec (env : Env) (args : List (String × JsValue)) :
    PreFetch :=
  let prompt := List.lookup "prompt" args
  let ref := List.lookup "modify_image_ref" args
  let model := (List.lookup "model" args).getD (.str "photon-flash-1")
  let ar := (List.lookup "aspect_ratio" args).getD (.str "16:9")
  if truthy env.lumaApiKey then
    if (match ref with
        | some (.obj fs) => jsTruthy (List.lookup "url" fs)
        | _ => false) then
      .fetch "https://api.lumalabs.ai/dream-machine/v1/generations/image" "POST"
        (some (.obj (optPair "prompt" prompt ++
          optPair "modify_image_ref" ref ++
          [("model", model), ("aspect_ratio", ar)])))
    else .ret (errObj "modify_image_ref must be an object with url and optional weight.")
  else .ret (errObj "LUMA_API_KEY environment variable is not set.")

/-- `generate-video.js`: key guard, then POST with the duration rendered
as `"<n>s"` and explicit `null` fields kept by `JSON.stringify`. -/
def lumaGenerateVideoExec (env : Env) (args : List (String × JsValue)) :
    PreFetch :=
  let prompt := List.lookup "prompt" args
  let model := (List.lookup "model" args).getD (.str "ray-flash-2")
  let ar := (List.lookup "aspect_ratio" args).getD (.str "16:9")
  let res := (List.lookup "resolution" args).getD (.str "720p")
  let dur := (List.lookup "duration" args).getD (.num 5)
  let loop := (List.lookup "loop" args).getD (.bool false)
  if truthy env.lumaApiKey then
    .fetch "https://api.lumalabs.ai/dream-machine/v1/generations/video" "POST"
      (some (.obj ([("generation_type", .str "video")] ++
        optPair "prompt" prompt ++
        [("model", model), ("aspect_ratio", ar), ("resolution", res),
         ("duration", .str (jsToStr dur ++ "s")), ("loop", loop),
         ("keyframes", .null), ("callback_url", .null),
         ("concepts", .null)])))
  else .ret (errObj "LUMA_API_KEY environment variable is not set.")

/-- `generate-video-from-image.js`: key guard, then POST with a
`keyframes.frame0` image reference. -/
def lumaGenerateVideoFromImageExec (env : Env)
    (args : List (String × JsValue)) : PreFetch :=
  let prompt := List.lookup "prompt" args
  let kf := List.lookup "keyframe_url" args
  let model := (List.lookup "model" args).getD (.str "ray-flash-2")
  let ar := (List.lookup "aspect_ratio" args).getD (.str "16:9")
  let res := (List.lookup "resolution" args).getD (.str "720p")
  let dur := (List.lookup "duration" args).getD (.num 5)
  let loop := (List.lookup "loop" args).getD (.bool false)
  if truthy env.lumaApiKey then
    .fetch "https://api.lumalabs.ai/dream-machine/v1/generations/video" "POST"
      (some (.obj (optPair "prompt" prompt ++
        [("keyframes", .obj [("frame0",
            .obj ([("type", .str "image")] ++ optPair "url" kf))]),
         ("model", model), ("aspect_ratio", ar), ("resolution", res),
         ("duration", dur), ("loop", loop)])))
  else .ret (errObj "LUMA_API_KEY environment variable is not set.")

/-- `list-generations.js`: key guard, then GET. -/
def lumaListGenerationsExec (env : Env) (_ : List (String × JsValue)) :
    PreFetch :=
  if truthy env.lumaApiKey then
    .fetch "https://api.lumalabs.ai/dream-machine/v1/generations" "GET" none
  else .ret (errObj "LUMA_API_KEY environment variable is not set.")

/-- `delete-generation.js`: key guard, then DELETE of the interpolated
generation URL. -/
def lumaDeleteGenerationExec (env : Env) (args : List (String × JsValue)) :
    PreFetch :=
  let gid := List.lookup "generation_id" args
  if truthy env.lumaApiKey then
    .fetch ("https://api.lumalabs.ai/dream-machine/v1/generations/" ++
      jsToStrOpt gid) "DELETE" none
  else .ret (errObj "LUMA_API_KEY environment variable is not set.")

/-- `upload-file.js` first module (`UploadFile`): key guard, then the
file-system probe `fs.existsSync(file_path)` — the first external
operation. -/
def openaiUploadFileExec (env : Env) (args : List (String × JsValue)) :
    PreFetch :=
  let fp := List.lookup "file_path" args
  if truthy env.apiKey then
    .external ("fs.existsSync " ++ jsToStrOpt fp)
  else .ret (errObj "API_KEY environment variable is not set.")

/-- `upload-file.js` second module (`RetrieveFileContent`): key guard,
then GET of the file-content URL. -/
def openaiRetrieveFileContentExec (env : Env)
    (args : List (String × JsValue)) : PreFetch :=
  let fid := List.lookup "file_id" args
  if truthy env.apiKey then
    .fetch ("https://api.openai.com/v1/files/" ++ jsToStrOpt fid ++ "/content")
      "GET" none
  else .ret (errObj "API_KEY environment variable is not set.")

/-- `upload-file.js` third module (`RetrieveFile`): key guard, then GET
of the file URL. -/
def openaiRetrieveFileExec (env : Env) (args : List (String × JsValue)) :
    PreFetch :=
  let fid := List.lookup "file_id" args
  if truthy env.apiKey then
    .fetch ("https://api.openai.com/v1/files/" ++ jsToStrOpt fid) "GET" none
  else .ret (errObj "API_KEY environment variable is not set.")

/-- `list-files.js`: key guard, then GET with the truthiness-gated query
parameters (`purpose`, `limit`, `after`, `before`), unencoded. -/
def openaiListFilesExec (env : Env) (args : List (String × JsValue)) :
    PreFetch :=
  let purpose := List.lookup "purpose" args
  let limit := (List.lookup "limit" args).getD (.num 20)
  let after := List.lookup "after" args
  let before := List.lookup "before" args
  if truthy env.apiKey then
    let q :=
      (if jsTruthy purpose then ["purpose=" ++ jsToStrOpt purpose] else []) ++
      (if jsTruthy (some limit) then ["limit=" ++ jsToStr limit] else []) ++
      (if jsTruthy after then ["after=" ++ jsToStrOpt after] else []) ++
      (if jsTruthy before then ["before=" ++ jsToStrOpt before] else [])
    .fetch ("https://api.openai.com/v1/files" ++
      (if q.isEmpty then "" else "?" ++ String.intercalate "&" q)) "GET" none
  else .ret (errObj "API_KEY environment variable is not set.")

/-- `delete-file.js`: key guard, then DELETE of the file URL. -/
def openaiDeleteFileExec (env : Env) (args : List (String × JsValue)) :
    PreFetch :=
  let fid := List.lookup "file_id" args
  if truthy env.apiKey then
    .fetch ("https://api.openai.com/v1/files/" ++ jsToStrOpt fid) "DELETE" none
  else .ret (errObj "API_KEY environment variable is not set.")

/-- `edit-image.js` first module (`EditImage`): key guard, then multipart
form construction (`FormData`/`Buffer.from`) — the first external
operation. -/
def openaiEditImageExec (env : Env) (_ : List (String × JsValue)) :
    PreFetch :=
  if truthy env.apiKey then
    .external "FormData multipart POST https://api.openai.com/v1/images/edits"
  else .ret (errObj "API_KEY environment variable is not set.")

/-- `edit-image.js` second module (`CreateImageVariation`): key guard,
then multipart form construction — the first external operation. -/
def openaiCreateImageVariationExec (env : Env)
    (_ : List (String × JsValue)) : PreFetch :=
  if truthy env.apiKey then
    .external "FormData multipart POST https://api.openai.com/v1/images/variations"
  else .ret (errObj "API_KEY environment variable is not set.")

/-- The `image_ref` acceptance test of the `part_003` handler, as the
source writes it: `Array.isArray(image_ref) && image_ref.length !== 0 &&
image_ref.length <= 4`. -/
def imageRefOK : Option JsValue → Bool
  | some (.arr xs) => decide (1 ≤ xs.length) && decide (xs.length ≤ 4)
  | _ => false

/-- `src/unnamed/part_003` first module
(`GenerateImageWithReference`): key guard, then the handler's own
`image_ref` bounds check (`!Array.isArray(image_ref) ||
image_ref.length === 0 || image_ref.length > 4`), then POST. -/
def part003GenerateImageWithReferenceExec (env : Env)
    (args : List (String × JsValue)) : PreFetch :=
  let prompt := List.lookup "prompt" args
  let imageRef := List.lookup "image_ref" args
  let model := (List.lookup "model" args).getD (.str "photon-flash-1")
  let ar := (List.lookup "aspect_ratio" args).getD (.str "16:9")
  if truthy env.lumaApiKey then
    if imageRefOK imageRef then
      .fetch "https://api.lumalabs.ai/dream-machine/v1/generations/image" "POST"
        (some (.obj (optPair "prompt" prompt ++
          optPair "image_ref" imageRef ++
          [("model", model), ("aspect_ratio", ar)])))
    else .ret (errObj "image_ref must be an array with 1-4 reference images.")
  else .ret (errObj "LUMA_API_KEY environment variable is not set.")

/-- `src/unnamed/part_002` first module (`GenerateImage`, Luma workspace
variant) at the dispatcher boundary: line 11 reads
`processss.env.BASE_URL` — `processss` is an undeclared identifier, so
evaluating the handler body raises a `ReferenceError` synchronously,
before the handler's own `try` block is entered; the async invocation
rejects with it and the remainder of the body is unreachable. -/
def part002GenerateImageCall : JsValue → HandlerOutcome :=
  fun _ => .thrown "processss is not defined"

/-- Canonical (fuel-saturated) well-formedness of a property list. -/
def wfProps (props : List (String × SchemaNode)) : Bool :=
  wfPropsF (sizeProps props) props

/-- JavaScript parameter destructuring: bind each parameter of the
pattern to the argument object's value for that key when present, and to
the pattern's default (or `undefined`, i.e. `none`) when absent. -/
def boundArgs (pat : List (String × Option JsValue))
    (args : List (String × JsValue)) : List (String × Option JsValue) :=
  pat.map (fun p =>
    (p.1, match List.lookup p.1 args with
          | some v => some v
          | none => p.2))

/-- A declared property that raises no validation error against the given
fields: if present, its value validates; if absent, it is not required
(an absent optional key never errors — a default is substituted or the
key is skipped). -/
def propNoErr (req : List String) (fields : List (String × JsValue))
    (p : String × SchemaNode) : Prop :=
  match List.lookup p.1 fields with
  | some w => ∃ w', validate p.2 w = .ok w'
  | none => p.1 ∉ req

/-- One handler under `src/tools` paired with the environment variable it
reads. -/
structure SrcTool where
  envVar : EnvVar
  exec : Env → List (String × JsValue) → PreFetch

/-- All fourteen `executeFunction`s under `src/tools`. -/
def srcToolHandlers : List SrcTool :=
  [⟨.LUMA_API_KEY, lumaGenerateImageExec⟩,
   ⟨.LUMA_API_KEY, lumaGenerateImageWithStyleExec⟩,
   ⟨.LUMA_API_KEY, lumaModifyImageExec⟩,
   ⟨.LUMA_API_KEY, lumaGenerateVideoExec⟩,
   ⟨.LUMA_API_KEY, lumaGenerateVideoFromImageExec⟩,
   ⟨.LUMA_API_KEY, lumaListGenerationsExec⟩,
   ⟨.LUMA_API_KEY, lumaDeleteGenerationExec⟩,
   ⟨.API_KEY, openaiUploadFileExec⟩,
   ⟨.API_KEY, openaiRetrieveFileContentExec⟩,
   ⟨.API_KEY, openaiRetrieveFileExec⟩,
   ⟨.API_KEY, openaiListFilesExec⟩,
   ⟨.API_KEY, openaiDeleteFileExec⟩,
   ⟨.API_KEY, openaiEditImageExec⟩,
   ⟨.API_KEY, openaiCreateImageVariationExec⟩]

/-- A stub handler that resolves to `{url: "http://x"}` (the spec's
testable-property example). -/
def stubUrlHandler : JsValue → HandlerOutcome :=
  fun _ => .resolved (.obj [("url", .str "http://x")])

/-- The descriptor a tool module registers as: its declared name,
description and schema paired with an executable handler. -/
def moduleDescriptor (m : ToolModule) (h : JsValue → HandlerOutcome) :
    ToolDescriptor :=
  ⟨m.name, m.description, m.parameters, h⟩

/-- The `generate-image.js` tool registered with the stub handler. -/
def lumaGenerateImageDescriptor : ToolDescriptor :=
  moduleDescriptor lumaGenerateImage stubUrlHandler

/-- A one-tool registry for the spec's `GenerateImage` examples. -/
def stubRegistry : Registry := [lumaGenerateImageDescriptor]

/-- The `part_002` `GenerateImage` with its genuinely throwing handler. -/
def part002Descriptor : ToolDescriptor :=
  moduleDescriptor part002GenerateImage part002GenerateImageCall

/-- The `part_002` `GetGeneration` with a stub handler. -/
def stubGetGenerationDescriptor : ToolDescriptor :=
  moduleDescriptor part002GetGeneration
    (fun _ => .resolved (.obj [("id", .str "gen-1")]))

/-- A registry pairing the throwing `GenerateImage` with a healthy tool,
to exercise a failure followed by a normally-processed call. -/
def demoRegistry : Registry := [part002Descriptor, stubGetGenerationDescriptor]

/-- A schema whose declared `default` violates its own bounds; validating
the normalized output of a successful validation then fails. -/
def defaultOutOfRangeSchema : SchemaNode := sObj [("c", sIntR 1 10 0)] []

/-- Well-formedness check of one module's parameter schema. -/
def moduleWF (m : ToolModule) : Bool := wfF m.parameters.size m.parameters

/-! ## Size lemmas -/

theorem size_pos (v : JsValue) : 1 ≤ v.size := by
  cases v <;> simp [JsValue.size]

theorem sizeFields_pos (fs : List (String × JsValue)) : 1 ≤ sizeFields fs := by
  cases fs with
  | nil => simp [sizeFields]
  | cons p fs => obtain ⟨k, v⟩ := p; simp [sizeFields]; omega

theorem sizeList_pos (xs : List JsValue) : 1 ≤ sizeList xs := by
  cases xs with
  | nil => simp [sizeList]
  | cons x xs => simp [sizeList]; omega

theorem sizeProps_pos (ps : List (String × SchemaNode)) : 1 ≤ sizeProps ps := by
  cases ps with
  | nil => simp [sizeProps]
  | cons p ps => obtain ⟨k, c⟩ := p; simp [sizeProps]; omega

theorem schema_size_pos (s : SchemaNode) : 1 ≤ s.size := by
  obtain ⟨kind, en, lo, hi, minI, maxI, dflt, req, props, itms⟩ := s
  unfold SchemaNode.size; omega

theorem lookup_size_lt {k : String} {fields : List (String × JsValue)}
    {w : JsValue} (h : List.lookup k fields = some w) :
    w.size < sizeFields fields := by
  induction fields with
  | nil => simp [List.lookup] at h
  | cons p fs ih =>
    obtain ⟨k', v'⟩ := p
    rw [List.lookup] at h
    split at h
    · cases h; simp [sizeFields]; omega
    · have := ih h; simp [sizeFields]; omega

theorem mem_size_lt {p : String × JsValue} {fields : List (String × JsValue)}
    (h : p ∈ fields) : p.2.size < sizeFields fields := by
  induction fields with
  | nil => cases h
  | cons q fs ih =>
    obtain ⟨k', v'⟩ := q
    rcases List.mem_cons.mp h with h' | h'
    · subst h'; simp [sizeFields]; omega
    · have := ih h'; simp [sizeFields]; omega

theorem mem_props_size_lt {k : String} {c : SchemaNode}
    {props : List (String × SchemaNode)} (h : (k, c) ∈ props) :
    c.size < sizeProps props := by
  induction props with
  | nil => cases h
  | cons q ps ih =>
    obtain ⟨k', c'⟩ := q
    rcases List.mem_cons.mp h with h' | h'
    · cases h'; simp [sizeProps]; omega
    · have := ih h'; simp [sizeProps]; omega

theorem mem_sizeList_lt {x : JsValue} {xs : List JsValue} (h : x ∈ xs) :
    x.size < sizeList xs := by
  induction xs with
  | nil => cases h
  | cons y ys ih =>
    rcases List.mem_cons.mp h with h' | h'
    · subst h'; simp [sizeList]; omega
    · have := ih h'; simp [sizeList]; omega

/-! ## Fuel irrelevance

`validateF` and its companions are insensitive to the exact fuel value as
long as it dominates the structural size of their arguments; this lets all
later reasoning use the canonical (fuel-saturated) entry points. -/

theorem fuelStep : ∀ f : Nat,
    (∀ s v, s.size + v.size ≤ f → validateF (f+1) s v = validateF f s v) ∧
    (∀ props req fields, sizeProps props + sizeFields fields ≤ f →
      validatePropsF (f+1) props req fields = validatePropsF f props req fields) ∧
    (∀ item xs idx, item.size + sizeList xs ≤ f →
      validateItemsF (f+1) item xs idx = validateItemsF f item xs idx) := by
  intro f
  induction f with
  | zero =>
    refine ⟨fun s v h => ?_, fun props req fields h => ?_, fun item xs idx h => ?_⟩
    · have := schema_size_pos s; have := size_pos v; omega
    · have := sizeProps_pos props; have := sizeFields_pos fields; omega
    · have := schema_size_pos item; have := sizeList_pos xs; omega
  | succ f ih =>
    obtain ⟨ihV, ihP, ihI⟩ := ih
    refine ⟨fun s v h => ?_, fun props req fields h => ?_, fun item xs idx h => ?_⟩
    · obtain ⟨kind, en, lo, hi, minI, maxI, dflt, req, props, itms⟩ := s
      cases v with
      | num q => simp [validateF]
      | str t => simp [validateF]
      | bool b => simp [validateF]
      | null => simp [validateF]
      | arr xs =>
        cases itms with
        | none => simp [validateF]
        | some item =>
          have hb : item.size + sizeList xs ≤ f := by
            unfold SchemaNode.size at h
            unfold JsValue.size at h
            dsimp only at h
            have := sizeProps_pos props
            omega
          simp only [validateF]
          rw [ihI item xs 0 hb]
      | obj fields =>
        have hb : sizeProps props + sizeFields fields ≤ f := by
          unfold SchemaNode.size at h
          unfold JsValue.size at h
          omega
        simp only [validateF]
        rw [ihP props req fields hb]
    · cases props with
      | nil => simp [validatePropsF]
      | cons p ps =>
        obtain ⟨k, c⟩ := p
        have hps : sizeProps ps + sizeFields fields ≤ f := by
          unfold sizeProps at h
          have := schema_size_pos c
          omega
        simp only [validatePropsF]
        cases hl : List.lookup k fields with
        | some w =>
          dsimp only
          have hw : c.size + w.size ≤ f := by
            have := lookup_size_lt hl
            unfold sizeProps at h
            have := sizeProps_pos ps
            omega
          rw [ihV c w hw]
          cases h2 : validateF f c w with
          | error e => rfl
          | ok w' => rw [ihP ps req fields hps]
        | none =>
          dsimp only
          by_cases hr : k ∈ req
          · simp [hr]
          · simp only [if_neg hr]
            cases hd : c.dflt with
            | some d => rw [ihP ps req fields hps]
            | none => exact ihP ps req fields hps
    · cases xs with
      | nil => simp [validateItemsF]
      | cons x xs' =>
        have hx : item.size + x.size ≤ f := by
          unfold sizeList at h
          have := sizeList_pos xs'
          omega
        have hxs : item.size + sizeList xs' ≤ f := by
          unfold sizeList at h
          have := size_pos x
          omega
        simp only [validateItemsF]
        rw [ihV item x hx]
        cases h2 : validateF f item x with
        | error e => rfl
        | ok y => rw [ihI item xs' (idx+1) hxs]

theorem validateF_eq {s : SchemaNode} {v : JsValue} {f : Nat}
    (h : s.size + v.size ≤ f) : validateF f s v = validate s v := by
  obtain ⟨n, rfl⟩ : ∃ n, f = (s.size + v.size) + n := ⟨f - (s.size + v.size), by omega⟩
  induction n with
  | zero => rfl
  | succ n ih =>
    have step := (fuelStep (s.size + v.size + n)).1 s v (by omega)
    calc validateF (s.size + v.size + (n+1)) s v
        = validateF (s.size + v.size + n) s v := step
      _ = validate s v := ih (by omega)

theorem validatePropsF_eq {props : List (String × SchemaNode)}
    {req : List String} {fields : List (String × JsValue)} {f : Nat}
    (h : sizeProps props + sizeFields fields ≤ f) :
    validatePropsF f props req fields = validateProps props req fields := by
  obtain ⟨n, rfl⟩ : ∃ n, f = (sizeProps props + sizeFields fields) + n :=
    ⟨f - (sizeProps props + sizeFields fields), by omega⟩
  induction n with
  | zero => rfl
  | succ n ih =>
    have step := (fuelStep (sizeProps props + sizeFields fields + n)).2.1
      props req fields (by omega)
    calc validatePropsF (sizeProps props + sizeFields fields + (n+1)) props req fields
        = validatePropsF (sizeProps props + sizeFields fields + n) props req fields := step
      _ = validateProps props req fields := ih (by omega)

theorem validateItemsF_eq {item : SchemaNode} {xs : List JsValue}
    {idx : Nat} {f : Nat} (h : item.size + sizeList xs ≤ f) :
    validateItemsF f item xs idx = validateItems item xs idx := by
  obtain ⟨n, rfl⟩ : ∃ n, f = (item.size + sizeList xs) + n :=
    ⟨f - (item.size + sizeList xs), by omega⟩
  induction n with
  | zero => rfl
  | succ n ih =>
    have step := (fuelStep (item.size + sizeList xs + n)).2.2 item xs idx (by omega)
    calc validateItemsF (item.size + sizeList xs + (n+1)) item xs idx
        = validateItemsF (item.size + sizeList xs + n) item xs idx := step
      _ = validateItems item xs idx := ih (by omega)



/-! ## Soundness of the boolean deep-equality test -/

theorem jsEqF_sound : ∀ f : Nat,
    (∀ a b, jsEqF f a b = true → a = b) ∧
    (∀ xs ys, jsEqListF f xs ys = true → xs = ys) ∧
    (∀ ps qs, jsEqFieldsF f ps qs = true → ps = qs) := by
  intro f
  induction f with
  | zero =>
    refine ⟨fun a b h => ?_, fun xs ys h => ?_, fun ps qs h => ?_⟩ <;>
      simp [jsEqF, jsEqListF, jsEqFieldsF] at h
  | succ f ih =>
    obtain ⟨ihV, ihL, ihF⟩ := ih
    refine ⟨fun a b h => ?_, fun xs ys h => ?_, fun ps qs h => ?_⟩
    · cases a <;> cases b <;> simp [jsEqF] at h
      case str.str s t => exact congrArg JsValue.str h
      case num.num p q => exact congrArg JsValue.num h
      case bool.bool x y => exact congrArg JsValue.bool h
      case null.null => rfl
      case arr.arr xs ys => exact congrArg JsValue.arr (ihL _ _ h)
      case obj.obj ps qs => exact congrArg JsValue.obj (ihF _ _ h)
    · cases xs <;> cases ys <;> simp [jsEqListF] at h
      · rfl
      · obtain ⟨h1, h2⟩ := h
        rw [ihV _ _ h1, ihL _ _ h2]
    · cases ps with
      | nil => cases qs with
        | nil => rfl
        | cons q qs => simp [jsEqFieldsF] at h
      | cons p ps' => cases qs with
        | nil => simp [jsEqFieldsF] at h
        | cons q qs' =>
          obtain ⟨k, x⟩ := p
          obtain ⟨l, y⟩ := q
          simp [jsEqFieldsF] at h
          obtain ⟨⟨hk, hx⟩, hrest⟩ := h
          rw [hk, ihV _ _ hx, ihF _ _ hrest]

theorem jsEq_sound {a b : JsValue} (h : jsEq a b = true) : a = b :=
  (jsEqF_sound a.size).1 a b h

/-! ## Fuel irrelevance for `normSpecF` -/

theorem fuelStepN : ∀ f : Nat, ∀ s v, v.size ≤ f →
    normSpecF (f+1) s v = normSpecF f s v := by
  intro f
  induction f with
  | zero => intro s v h; have := size_pos v; omega
  | succ f ih =>
    intro s v h
    cases v with
    | num q => rfl
    | str t => rfl
    | bool b => rfl
    | null => rfl
    | arr xs =>
      show (match s.items with
            | some item => JsValue.arr (xs.map (normSpecF (f+1) item))
            | none => JsValue.arr xs) =
          (match s.items with
            | some item => JsValue.arr (xs.map (normSpecF f item))
            | none => JsValue.arr xs)
      cases hi : s.items with
      | none => rfl
      | some item =>
        have hmap : xs.map (normSpecF (f+1) item) = xs.map (normSpecF f item) := by
          apply List.map_congr_left
          intro x hx
          have hxs : x.size ≤ f := by
            have := mem_sizeList_lt hx
            unfold JsValue.size at h
            omega
          exact ih item x hxs
        exact congrArg JsValue.arr hmap
    | obj fields =>
      show JsValue.obj (normFields (normSpecF (f+1)) s.properties fields fields ++
            fillDefaults s.properties fields) =
          JsValue.obj (normFields (normSpecF f) s.properties fields fields ++
            fillDefaults s.properties fields)
      have hnf : normFields (normSpecF (f+1)) s.properties fields fields =
          normFields (normSpecF f) s.properties fields fields := by
        unfold normFields
        apply List.map_congr_left
        intro p hp
        cases hc : List.lookup p.1 s.properties with
        | none => rfl
        | some c =>
          have hw : ((List.lookup p.1 fields).getD p.2).size ≤ f := by
            cases hl : List.lookup p.1 fields with
            | none =>
              have := mem_size_lt hp
              unfold JsValue.size at h
              simp [hl]
              omega
            | some w =>
              have := lookup_size_lt hl
              unfold JsValue.size at h
              simp [hl]
              omega
          simp only [ih c _ hw]
      rw [hnf]

theorem normSpecF_eq {s : SchemaNode} {v : JsValue} {f : Nat}
    (h : v.size ≤ f) : normSpecF f s v = normSpec s v := by
  obtain ⟨n, rfl⟩ : ∃ n, f = v.size + n := ⟨f - v.size, by omega⟩
  induction n with
  | zero => rfl
  | succ n ih =>
    calc normSpecF (v.size + (n+1)) s v
        = normSpecF (v.size + n) s v := fuelStepN (v.size + n) s v (by omega)
      _ = normSpec s v := ih (by omega)


/-! ## Size unfolding equations -/

theorem schemaSize_mk (kind : SchemaKind) (en : Option (List JsValue))
    (lo hi : Option Rat) (minI maxI : Option Nat) (dflt : Option JsValue)
    (req : List String) (props : List (String × SchemaNode))
    (itms : Option SchemaNode) :
    (SchemaNode.mk kind en lo hi minI maxI dflt req props itms).size =
      1 + sizeProps props + (match itms with | some i => i.size | none => 0) := by
  rw [SchemaNode.size.eq_def]

theorem schemaSize_mkSome (kind : SchemaKind) (en : Option (List JsValue))
    (lo hi : Option Rat) (minI maxI : Option Nat) (dflt : Option JsValue)
    (req : List String) (props : List (String × SchemaNode))
    (item : SchemaNode) :
    (SchemaNode.mk kind en lo hi minI maxI dflt req props (some item)).size =
      1 + sizeProps props + item.size := by
  rw [SchemaNode.size.eq_def]

theorem vsize_obj (fields : List (String × JsValue)) :
    (JsValue.obj fields).size = 1 + sizeFields fields := by
  rw [JsValue.size]

theorem vsize_arr (xs : List JsValue) :
    (JsValue.arr xs).size = 1 + sizeList xs := by
  rw [JsValue.size]

theorem sizeProps_cons (k : String) (c : SchemaNode)
    (ps : List (String × SchemaNode)) :
    sizeProps ((k, c) :: ps) = 1 + c.size + sizeProps ps := by
  rw [sizeProps]

theorem sizeList_cons (x : JsValue) (xs : List JsValue) :
    sizeList (x :: xs) = 1 + x.size + sizeList xs := by
  rw [sizeList]

theorem sizeFields_cons (k : String) (v : JsValue)
    (fs : List (String × JsValue)) :
    sizeFields ((k, v) :: fs) = 1 + v.size + sizeFields fs := by
  rw [sizeFields]

/-! ## Canonical one-step equations

Unfoldings of the canonical entry points in terms of themselves, with the
fuel hidden. -/

theorem validate_num (kind : SchemaKind) (en : Option (List JsValue))
    (lo hi : Option Rat) (minI maxI : Option Nat) (dflt : Option JsValue)
    (req : List String) (props : List (String × SchemaNode))
    (itms : Option SchemaNode) (q : Rat) :
    validate (.mk kind en lo hi minI maxI dflt req props itms) (.num q) =
      if kindMatches kind (.num q) then
        if (match en with | some es => es.any (jsEq (.num q)) | none => true) then
          if boundsOK lo hi q then .ok (.num q)
          else .error (.outOfRange [] lo hi)
        else .error (.invalidEnum [] (en.getD []))
      else .error (.typeMismatch [] kind (JsValue.num q).kindOf) := by
  unfold validate
  have hs := schema_size_pos (SchemaNode.mk kind en lo hi minI maxI dflt req props itms)
  obtain ⟨n, hn⟩ : ∃ n,
      (SchemaNode.mk kind en lo hi minI maxI dflt req props itms).size +
        (JsValue.num q).size = n + 1 :=
    ⟨(SchemaNode.mk kind en lo hi minI maxI dflt req props itms).size +
      (JsValue.num q).size - 1, by omega⟩
  rw [hn]
  rfl

theorem validate_str (kind : SchemaKind) (en : Option (List JsValue))
    (lo hi : Option Rat) (minI maxI : Option Nat) (dflt : Option JsValue)
    (req : List String) (props : List (String × SchemaNode))
    (itms : Option SchemaNode) (t : String) :
    validate (.mk kind en lo hi minI maxI dflt req props itms) (.str t) =
      if kindMatches kind (.str t) then
        if (match en with | some es => es.any (jsEq (.str t)) | none => true) then
          .ok (.str t)
        else .error (.invalidEnum [] (en.getD []))
      else .error (.typeMismatch [] kind (JsValue.str t).kindOf) := by
  unfold validate
  have hs := schema_size_pos (SchemaNode.mk kind en lo hi minI maxI dflt req props itms)
  obtain ⟨n, hn⟩ : ∃ n,
      (SchemaNode.mk kind en lo hi minI maxI dflt req props itms).size +
        (JsValue.str t).size = n + 1 :=
    ⟨(SchemaNode.mk kind en lo hi minI maxI dflt req props itms).size +
      (JsValue.str t).size - 1, by omega⟩
  rw [hn]
  rfl

theorem validate_bool (kind : SchemaKind) (en : Option (List JsValue))
    (lo hi : Option Rat) (minI maxI : Option Nat) (dflt : Option JsValue)
    (req : List String) (props : List (String × SchemaNode))
    (itms : Option SchemaNode) (b : Bool) :
    validate (.mk kind en lo hi minI maxI dflt req props itms) (.bool b) =
      if kindMatches kind (.bool b) then
        if (match en with | some es => es.any (jsEq (.bool b)) | none => true) then
          .ok (.bool b)
        else .error (.invalidEnum [] (en.getD []))
      else .error (.typeMismatch [] kind (JsValue.bool b).kindOf) := by
  unfold validate
  have hs := schema_size_pos (SchemaNode.mk kind en lo hi minI maxI dflt req props itms)
  obtain ⟨n, hn⟩ : ∃ n,
      (SchemaNode.mk kind en lo hi minI maxI dflt req props itms).size +
        (JsValue.bool b).size = n + 1 :=
    ⟨(SchemaNode.mk kind en lo hi minI maxI dflt req props itms).size +
      (JsValue.bool b).size - 1, by omega⟩
  rw [hn]
  rfl

theorem validate_null (kind : SchemaKind) (en : Option (List JsValue))
    (lo hi : Option Rat) (minI maxI : Option Nat) (dflt : Option JsValue)
    (req : List String) (props : List (String × SchemaNode))
    (itms : Option SchemaNode) :
    validate (.mk kind en lo hi minI maxI dflt req props itms) .null =
      if kindMatches kind .null then
        if (match en with | some es => es.any (jsEq .null) | none => true) then
          .ok .null
        else .error (.invalidEnum [] (en.getD []))
      else .error (.typeMismatch [] kind JsValue.null.kindOf) := by
  unfold validate
  have hs := schema_size_pos (SchemaNode.mk kind en lo hi minI maxI dflt req props itms)
  obtain ⟨n, hn⟩ : ∃ n,
      (SchemaNode.mk kind en lo hi minI maxI dflt req props itms).size +
        JsValue.null.size = n + 1 :=
    ⟨(SchemaNode.mk kind en lo hi minI maxI dflt req props itms).size +
      JsValue.null.size - 1, by omega⟩
  rw [hn]
  rfl

theorem validate_obj (kind : SchemaKind) (en : Option (List JsValue))
    (lo hi : Option Rat) (minI maxI : Option Nat) (dflt : Option JsValue)
    (req : List String) (props : List (String × SchemaNode))
    (itms : Option SchemaNode) (fields : List (String × JsValue)) :
    validate (.mk kind en lo hi minI maxI dflt req props itms) (.obj fields) =
      if kindMatches kind (.obj fields) then
        if (match en with
            | some es => es.any (jsEq (.obj fields))
            | none => true) then
          match validateProps props req fields with
          | .error e => .error e
          | .ok (repl, filled) => .ok (.obj (applyRepl repl fields ++ filled))
        else .error (.invalidEnum [] (en.getD []))
      else .error (.typeMismatch [] kind (JsValue.obj fields).kindOf) := by
  unfold validate
  have hs := schema_size_pos (SchemaNode.mk kind en lo hi minI maxI dflt req props itms)
  obtain ⟨n, hn, hb⟩ : ∃ n,
      (SchemaNode.mk kind en lo hi minI maxI dflt req props itms).size +
        (JsValue.obj fields).size = n + 1 ∧
      sizeProps props + sizeFields fields ≤ n := by
    refine ⟨(SchemaNode.mk kind en lo hi minI maxI dflt req props itms).size +
      (JsValue.obj fields).size - 1, by omega, ?_⟩
    rw [schemaSize_mk, vsize_obj]
    omega
  rw [hn]
  simp only [validateF]
  simp only [validatePropsF_eq hb]

theorem validate_arr (kind : SchemaKind) (en : Option (List JsValue))
    (lo hi : Option Rat) (minI maxI : Option Nat) (dflt : Option JsValue)
    (req : List String) (props : List (String × SchemaNode))
    (item : SchemaNode) (xs : List JsValue) :
    validate (.mk kind en lo hi minI maxI dflt req props (some item))
        (.arr xs) =
      if kindMatches kind (.arr xs) then
        if (match en with
            | some es => es.any (jsEq (.arr xs))
            | none => true) then
          if lenOK minI maxI xs.length then
            match validateItems item xs 0 with
            | .error e => .error e
            | .ok ys => .ok (.arr ys)
          else .error (.invalidLength [] minI maxI)
        else .error (.invalidEnum [] (en.getD []))
      else .error (.typeMismatch [] kind (JsValue.arr xs).kindOf) := by
  unfold validate
  have hs := schema_size_pos (SchemaNode.mk kind en lo hi minI maxI dflt req props (some item))
  obtain ⟨n, hn, hb⟩ : ∃ n,
      (SchemaNode.mk kind en lo hi minI maxI dflt req props (some item)).size +
        (JsValue.arr xs).size = n + 1 ∧
      item.size + sizeList xs ≤ n := by
    refine ⟨(SchemaNode.mk kind en lo hi minI maxI dflt req props (some item)).size +
      (JsValue.arr xs).size - 1, by omega, ?_⟩
    rw [schemaSize_mkSome, vsize_arr]
    have := sizeProps_pos props
    omega
  rw [hn]
  simp only [validateF]
  simp only [validateItemsF_eq hb]

theorem validate_arrNone (kind : SchemaKind) (en : Option (List JsValue))
    (lo hi : Option Rat) (minI maxI : Option Nat) (dflt : Option JsValue)
    (req : List String) (props : List (String × SchemaNode))
    (xs : List JsValue) :
    validate (.mk kind en lo hi minI maxI dflt req props none) (.arr xs) =
      if kindMatches kind (.arr xs) then
        if (match en with
            | some es => es.any (jsEq (.arr xs))
            | none => true) then
          if lenOK minI maxI xs.length then .ok (.arr xs)
          else .error (.invalidLength [] minI maxI)
        else .error (.invalidEnum [] (en.getD []))
      else .error (.typeMismatch [] kind (JsValue.arr xs).kindOf) := by
  unfold validate
  have hs := schema_size_pos (SchemaNode.mk kind en lo hi minI maxI dflt req props none)
  obtain ⟨n, hn⟩ : ∃ n,
      (SchemaNode.mk kind en lo hi minI maxI dflt req props none).size +
        (JsValue.arr xs).size = n + 1 :=
    ⟨(SchemaNode.mk kind en lo hi minI maxI dflt req props none).size +
      (JsValue.arr xs).size - 1, by omega⟩
  rw [hn]
  rfl

theorem validateProps_nil (req : List String)
    (fields : List (String × JsValue)) :
    validateProps [] req fields = .ok ([], []) := by
  unfold validateProps
  have h1 := sizeFields_pos fields
  have h2 := sizeProps_pos ([] : List (String × SchemaNode))
  obtain ⟨n, hn⟩ : ∃ n, sizeProps [] + sizeFields fields = n + 1 :=
    ⟨sizeProps ([] : List (String × SchemaNode)) + sizeFields fields - 1, by omega⟩
  rw [hn]
  rfl

theorem validateProps_cons_present {k : String} {fields : List (String × JsValue)}
    {w : JsValue} (c : SchemaNode) (ps : List (String × SchemaNode))
    (req : List String) (hl : List.lookup k fields = some w) :
    validateProps ((k, c) :: ps) req fields =
      match validate c w with
      | .error e => .error (e.prep k)
      | .ok w' =>
        match validateProps ps req fields with
        | .error e => .error e
        | .ok (r, d) => .ok ((k, w') :: r, d) := by
  unfold validateProps
  have ha := lookup_size_lt hl
  have hb := schema_size_pos c
  have hc := sizeProps_pos ps
  have hd := sizeFields_pos fields
  obtain ⟨n, hn, hbw, hbp⟩ : ∃ n,
      sizeProps ((k, c) :: ps) + sizeFields fields = n + 1 ∧
      c.size + w.size ≤ n ∧ sizeProps ps + sizeFields fields ≤ n := by
    refine ⟨sizeProps ((k, c) :: ps) + sizeFields fields - 1, ?_, ?_, ?_⟩ <;>
      (rw [sizeProps_cons]; omega)
  rw [hn]
  simp only [validatePropsF, hl]
  simp only [validateF_eq hbw, validatePropsF_eq hbp]
  rfl

theorem validateProps_cons_absent {k : String} {fields : List (String × JsValue)}
    (c : SchemaNode) (ps : List (String × SchemaNode)) (req : List String)
    (hl : List.lookup k fields = none) :
    validateProps ((k, c) :: ps) req fields =
      if k ∈ req then .error (.missingField [k])
      else
        match c.dflt with
        | some d =>
          match validateProps ps req fields with
          | .error e => .error e
          | .ok (r, ds) => .ok (r, (k, d) :: ds)
        | none => validateProps ps req fields := by
  unfold validateProps
  have hb := schema_size_pos c
  have hc := sizeProps_pos ps
  have hd := sizeFields_pos fields
  obtain ⟨n, hn, hbp⟩ : ∃ n,
      sizeProps ((k, c) :: ps) + sizeFields fields = n + 1 ∧
      sizeProps ps + sizeFields fields ≤ n := by
    refine ⟨sizeProps ((k, c) :: ps) + sizeFields fields - 1, ?_, ?_⟩ <;>
      (rw [sizeProps_cons]; omega)
  rw [hn]
  simp only [validatePropsF, hl]
  simp only [validatePropsF_eq hbp]
  rfl

theorem validateItems_nil (item : SchemaNode) (idx : Nat) :
    validateItems item [] idx = .ok [] := by
  unfold validateItems
  have h1 := schema_size_pos item
  have h2 := sizeList_pos ([] : List JsValue)
  obtain ⟨n, hn⟩ : ∃ n, item.size + sizeList [] = n + 1 :=
    ⟨item.size + sizeList ([] : List JsValue) - 1, by omega⟩
  rw [hn]
  rfl

theorem validateItems_cons (item : SchemaNode) (x : JsValue)
    (xs : List JsValue) (idx : Nat) :
    validateItems item (x :: xs) idx =
      match validate item x with
      | .error e => .error (e.prep (toString idx))
      | .ok y =>
        match validateItems item xs (idx + 1) with
        | .error e => .error e
        | .ok ys => .ok (y :: ys) := by
  unfold validateItems
  have h1 := schema_size_pos item
  have h2 := size_pos x
  have h3 := sizeList_pos xs
  obtain ⟨n, hn, hbx, hbxs⟩ : ∃ n,
      item.size + sizeList (x :: xs) = n + 1 ∧
      item.size + x.size ≤ n ∧ item.size + sizeList xs ≤ n := by
    refine ⟨item.size + sizeList (x :: xs) - 1, ?_, ?_, ?_⟩ <;>
      (rw [sizeList_cons]; omega)
  rw [hn]
  simp only [validateItemsF]
  simp only [validateF_eq hbx, validateItemsF_eq hbxs]
  rfl

theorem normSpec_scalar (s : SchemaNode) (v : JsValue)
    (hv : v.kindOf ≠ .obj ∧ v.kindOf ≠ .arr) : normSpec s v = v := by
  cases v with
  | num q => rfl
  | str t => rfl
  | bool b => rfl
  | null => rfl
  | arr xs => exact absurd rfl hv.2
  | obj fields => exact absurd rfl hv.1

theorem normSpec_obj (s : SchemaNode) (fields : List (String × JsValue)) :
    normSpec s (.obj fields) =
      .obj (normFields normSpec s.properties fields fields ++
            fillDefaults s.properties fields) := by
  unfold normSpec
  obtain ⟨n, hn⟩ : ∃ n, (JsValue.obj fields).size = n + 1 :=
    ⟨sizeFields fields, by rw [vsize_obj]; omega⟩
  rw [hn]
  have hnv : n = sizeFields fields := by rw [vsize_obj] at hn; omega
  simp only [normSpecF]
  congr 1
  congr 1
  unfold normFields
  apply List.map_congr_left
  intro p hp
  cases hc : List.lookup p.1 s.properties with
  | none => rfl
  | some c =>
    have hw : ((List.lookup p.1 fields).getD p.2).size ≤ n := by
      cases hl : List.lookup p.1 fields with
      | none =>
        have := mem_size_lt hp
        simp [hl]
        omega
      | some w =>
        have := lookup_size_lt hl
        simp [hl]
        omega
    simp only [normSpecF_eq hw]
    rfl

theorem normSpec_arr (s : SchemaNode) (xs : List JsValue) :
    normSpec s (.arr xs) =
      match s.items with
      | some item => .arr (xs.map (normSpec item))
      | none => .arr xs := by
  unfold normSpec
  obtain ⟨n, hn⟩ : ∃ n, (JsValue.arr xs).size = n + 1 :=
    ⟨sizeList xs, by rw [vsize_arr]; omega⟩
  rw [hn]
  have hnv : n = sizeList xs := by rw [vsize_arr] at hn; omega
  simp only [normSpecF]
  cases hi : s.items with
  | none => rfl
  | some item =>
    exact congrArg JsValue.arr (List.map_congr_left fun x hx =>
      normSpecF_eq (by have := mem_sizeList_lt hx; omega))


/-! ## Well-formedness: fuel irrelevance and unfolding -/

theorem wfStep : ∀ f : Nat,
    (∀ s, s.size ≤ f → wfF (f+1) s = wfF f s) ∧
    (∀ props, sizeProps props ≤ f → wfPropsF (f+1) props = wfPropsF f props) := by
  intro f
  induction f with
  | zero =>
    refine ⟨fun s h => ?_, fun props h => ?_⟩
    · have := schema_size_pos s; omega
    · have := sizeProps_pos props; omega
  | succ f ih =>
    obtain ⟨ihW, ihP⟩ := ih
    refine ⟨fun s h => ?_, fun props h => ?_⟩
    · obtain ⟨kind, en, lo, hi, minI, maxI, dflt, req, props, itms⟩ := s
      cases itms with
      | none =>
        have hbp : sizeProps props ≤ f := by
          rw [schemaSize_mk] at h; dsimp only at h; omega
        simp only [wfF]
        rw [ihP props hbp]
      | some item =>
        have hbp : sizeProps props ≤ f := by
          rw [schemaSize_mkSome] at h
          have := schema_size_pos item
          omega
        have hbi : item.size ≤ f := by
          rw [schemaSize_mkSome] at h
          have := sizeProps_pos props
          omega
        simp only [wfF]
        rw [ihP props hbp, ihW item hbi]
    · cases props with
      | nil => simp [wfPropsF]
      | cons p ps =>
        obtain ⟨k, c⟩ := p
        have hbc : c.size ≤ f := by
          rw [sizeProps_cons] at h; have := sizeProps_pos ps; omega
        have hbp : sizeProps ps ≤ f := by
          rw [sizeProps_cons] at h; have := schema_size_pos c; omega
        simp only [wfPropsF]
        rw [ihW c hbc, ihP ps hbp]

theorem wfF_eq {s : SchemaNode} {f : Nat} (h : s.size ≤ f) :
    wfF f s = wfF s.size s := by
  obtain ⟨n, rfl⟩ : ∃ n, f = s.size + n := ⟨f - s.size, by omega⟩
  induction n with
  | zero => rfl
  | succ n ih =>
    calc wfF (s.size + (n+1)) s
        = wfF (s.size + n) s := (wfStep (s.size + n)).1 s (by omega)
      _ = wfF s.size s := ih (by omega)

theorem wfPropsF_eq {props : List (String × SchemaNode)} {f : Nat}
    (h : sizeProps props ≤ f) : wfPropsF f props = wfProps props := by
  obtain ⟨n, rfl⟩ : ∃ n, f = sizeProps props + n :=
    ⟨f - sizeProps props, by omega⟩
  induction n with
  | zero => rfl
  | succ n ih =>
    calc wfPropsF (sizeProps props + (n+1)) props
        = wfPropsF (sizeProps props + n) props :=
          (wfStep (sizeProps props + n)).2 props (by omega)
      _ = wfProps props := ih (by omega)

theorem wf_mk (kind : SchemaKind) (en : Option (List JsValue))
    (lo hi : Option Rat) (minI maxI : Option Nat) (dflt : Option JsValue)
    (req : List String) (props : List (String × SchemaNode))
    (itms : Option SchemaNode) :
    wfF (SchemaNode.mk kind en lo hi minI maxI dflt req props itms).size
        (SchemaNode.mk kind en lo hi minI maxI dflt req props itms) =
      ((!(kind == .object || kind == .array) || en.isNone) &&
       decide ((props.map Prod.fst).Nodup) &&
       (match dflt with
        | some d =>
          match validate (.mk kind en lo hi minI maxI dflt req props itms) d with
          | .ok d' => jsEq d' d
          | .error _ => false
        | none => true) &&
       wfProps props &&
       (match itms with | some i => wfF i.size i | none => true)) := by
  obtain ⟨n, hn, hbp⟩ : ∃ n,
      (SchemaNode.mk kind en lo hi minI maxI dflt req props itms).size = n + 1 ∧
      sizeProps props ≤ n := by
    refine ⟨(SchemaNode.mk kind en lo hi minI maxI dflt req props itms).size - 1,
      ?_, ?_⟩ <;> (rw [schemaSize_mk]; omega)
  rw [hn]
  cases itms with
  | none =>
    simp only [wfF]
    rw [wfPropsF_eq hbp]
  | some item =>
    have hbi : item.size ≤ n := by
      rw [schemaSize_mkSome] at hn
      have := sizeProps_pos props
      omega
    simp only [wfF]
    rw [wfPropsF_eq hbp, wfF_eq hbi]

theorem wfProps_cons (k : String) (c : SchemaNode)
    (ps : List (String × SchemaNode)) :
    wfProps ((k, c) :: ps) = (wfF c.size c && wfProps ps) := by
  unfold wfProps
  obtain ⟨n, hn, hbc, hbp⟩ : ∃ n, sizeProps ((k, c) :: ps) = n + 1 ∧
      c.size ≤ n ∧ sizeProps ps ≤ n := by
    have h1 := schema_size_pos c
    have h2 := sizeProps_pos ps
    refine ⟨sizeProps ((k, c) :: ps) - 1, ?_, ?_, ?_⟩ <;>
      (rw [sizeProps_cons]; omega)
  rw [hn]
  simp only [wfPropsF]
  rw [wfF_eq hbc, wfPropsF_eq hbp]
  rfl

theorem wfProps_mem {props : List (String × SchemaNode)}
    (h : wfProps props = true) {k : String} {c : SchemaNode}
    (hm : (k, c) ∈ props) : schemaWF c := by
  induction props with
  | nil => cases hm
  | cons p ps ih =>
    obtain ⟨k', c'⟩ := p
    rw [wfProps_cons] at h
    rcases List.mem_cons.mp hm with h' | h'
    · cases h'
      have := (Bool.and_eq_true _ _).mp h
      exact this.1
    · exact ih ((Bool.and_eq_true _ _).mp h).2 h'

/-- Unpack a well-formed node into its five guarantees. -/
theorem schemaWF_parts {kind : SchemaKind} {en : Option (List JsValue)}
    {lo hi : Option Rat} {minI maxI : Option Nat} {dflt : Option JsValue}
    {req : List String} {props : List (String × SchemaNode)}
    {itms : Option SchemaNode}
    (h : schemaWF (.mk kind en lo hi minI maxI dflt req props itms)) :
    ((kind = .object ∨ kind = .array) → en = none) ∧
    (props.map Prod.fst).Nodup ∧
    (∀ d, dflt = some d →
      validate (.mk kind en lo hi minI maxI dflt req props itms) d = .ok d) ∧
    (∀ k c, (k, c) ∈ props → schemaWF c) ∧
    (∀ item, itms = some item → schemaWF item) := by
  unfold schemaWF at h
  rw [wf_mk] at h
  simp only [Bool.and_eq_true] at h
  obtain ⟨⟨⟨⟨h1, h2⟩, h3⟩, h4⟩, h5⟩ := h
  refine ⟨?_, of_decide_eq_true h2, ?_, ?_, ?_⟩
  · intro hk
    have : (kind == .object || kind == .array) = true := by
      rcases hk with rfl | rfl <;> simp
    rw [this] at h1
    simp at h1
    exact h1
  · intro d hd
    subst hd
    dsimp only at h3
    cases hv : validate (.mk kind en lo hi minI maxI (some d) req props itms) d with
    | error e => rw [hv] at h3; simp at h3
    | ok d' =>
      rw [hv] at h3
      have hd' : d' = d := jsEq_sound h3
      subst hd'
      rfl
  · intro k c hm
    exact wfProps_mem h4 hm
  · intro item hi
    subst hi
    exact h5


/-! ## Association-list lemmas -/

theorem lookup_append (k : String) (a b : List (String × JsValue)) :
    List.lookup k (a ++ b) =
      match List.lookup k a with
      | some v => some v
      | none => List.lookup k b := by
  induction a with
  | nil => simp [List.lookup]
  | cons p ps ih =>
    obtain ⟨k', v'⟩ := p
    cases hb : (k == k') with
    | true => simp [List.lookup, hb]
    | false => simp [List.lookup, hb, ih]

theorem lookup_isSome_of_mem {p : String × JsValue}
    {fields : List (String × JsValue)} (h : p ∈ fields) :
    (List.lookup p.1 fields).isSome = true := by
  induction fields with
  | nil => cases h
  | cons q fs ih =>
    obtain ⟨k', v'⟩ := q
    rcases List.mem_cons.mp h with h' | h'
    · subst h'; simp [List.lookup]
    · cases hb : (p.1 == k') with
      | true => simp [List.lookup, hb]
      | false => simp only [List.lookup, hb]; exact ih h'

theorem applyRepl_keys (repl fields : List (String × JsValue)) :
    (applyRepl repl fields).map Prod.fst = fields.map Prod.fst := by
  induction fields with
  | nil => rfl
  | cons p fs ih =>
    obtain ⟨k, v⟩ := p
    rw [show applyRepl repl ((k, v) :: fs) =
        (match List.lookup k repl with
         | some v' => (k, v')
         | none => (k, v)) :: applyRepl repl fs from rfl,
      List.map_cons, List.map_cons, ih]
    cases List.lookup k repl <;> rfl

theorem normFields_keys (g : SchemaNode → JsValue → JsValue)
    (props : List (String × SchemaNode))
    (fields rest : List (String × JsValue)) :
    (normFields g props fields rest).map Prod.fst = rest.map Prod.fst := by
  induction rest with
  | nil => rfl
  | cons p rs ih =>
    obtain ⟨k, v⟩ := p
    rw [show normFields g props fields ((k, v) :: rs) =
        (match List.lookup k props with
         | some c => (k, g c ((List.lookup k fields).getD v))
         | none => (k, v)) :: normFields g props fields rs from rfl,
      List.map_cons, List.map_cons, ih]
    cases List.lookup k props <;> rfl

theorem lookup_replSpec (k : String) (props : List (String × SchemaNode))
    (fields : List (String × JsValue)) :
    List.lookup k (replSpec props fields) =
      match List.lookup k props, List.lookup k fields with
      | some c, some w => some (normSpec c w)
      | _, _ => none := by
  induction props with
  | nil =>
    simp only [replSpec, List.lookup]
  | cons p ps ih =>
    obtain ⟨k', c⟩ := p
    cases hb : (k == k') with
    | true =>
      have hk : k = k' := by simpa using hb
      subst hk
      cases hl : List.lookup k fields with
      | some w => simp [replSpec, hl, List.lookup, hb]
      | none =>
        simp only [replSpec, hl, List.lookup, hb]
        rw [ih, hl]
        cases List.lookup k ps <;> rfl
    | false =>
      cases hl : List.lookup k' fields with
      | some w =>
        simp only [replSpec, hl, List.lookup, hb]
        rw [ih]
      | none =>
        simp only [replSpec, hl, List.lookup, hb]
        rw [ih]

theorem applyRepl_replSpec (props : List (String × SchemaNode))
    (fields rest : List (String × JsValue))
    (h : ∀ p ∈ rest, (List.lookup p.1 fields).isSome = true) :
    applyRepl (replSpec props fields) rest =
      normFields normSpec props fields rest := by
  unfold applyRepl normFields
  apply List.map_congr_left
  intro p hp
  rw [lookup_replSpec]
  cases hc : List.lookup p.1 props with
  | none => cases List.lookup p.1 fields <;> rfl
  | some c =>
    cases hl : List.lookup p.1 fields with
    | none => have := h p hp; rw [hl] at this; simp at this
    | some w => simp

/-! ## Characterization of successful validation -/

theorem normSpec_num (s : SchemaNode) (q : Rat) :
    normSpec s (.num q) = .num q := rfl

theorem normSpec_str (s : SchemaNode) (t : String) :
    normSpec s (.str t) = .str t := rfl

theorem normSpec_bool (s : SchemaNode) (b : Bool) :
    normSpec s (.bool b) = .bool b := rfl

theorem normSpec_null (s : SchemaNode) : normSpec s .null = .null := rfl

theorem propsA {props : List (String × SchemaNode)} {req : List String}
    {fields : List (String × JsValue)}
    (IHv : ∀ k c w out', (k, c) ∈ props → List.lookup k fields = some w →
      validate c w = .ok out' → out' = normSpec c w) :
    ∀ {repl filled}, validateProps props req fields = .ok (repl, filled) →
      repl = replSpec props fields ∧ filled = fillDefaults props fields := by
  induction props with
  | nil =>
    intro repl filled h
    rw [validateProps_nil] at h
    cases h
    exact ⟨rfl, rfl⟩
  | cons p ps ih =>
    obtain ⟨k, c⟩ := p
    intro repl filled h
    have IHv' : ∀ k' c' w out', (k', c') ∈ ps → List.lookup k' fields = some w →
        validate c' w = .ok out' → out' = normSpec c' w :=
      fun k' c' w out' hm => IHv k' c' w out' (List.mem_cons_of_mem _ hm)
    cases hl : List.lookup k fields with
    | some w =>
      rw [validateProps_cons_present c ps req hl] at h
      cases hv : validate c w with
      | error e => rw [hv] at h; simp at h
      | ok w' =>
        rw [hv] at h
        cases hrest : validateProps ps req fields with
        | error e => rw [hrest] at h; simp at h
        | ok rd =>
          obtain ⟨r, d⟩ := rd
          rw [hrest] at h
          cases h
          obtain ⟨hr, hd⟩ := ih IHv' hrest
          have hw' : w' = normSpec c w :=
            IHv k c w w' (List.mem_cons_self _ _) hl hv
          constructor
          · simp [replSpec, hl, hw', hr]
          · simp [fillDefaults, hl, hd]
    | none =>
      rw [validateProps_cons_absent c ps req hl] at h
      by_cases hr : k ∈ req
      · rw [if_pos hr] at h; simp at h
      · rw [if_neg hr] at h
        cases hdf : c.dflt with
        | some d =>
          rw [hdf] at h
          cases hrest : validateProps ps req fields with
          | error e => rw [hrest] at h; simp at h
          | ok rd =>
            obtain ⟨r, ds⟩ := rd
            rw [hrest] at h
            cases h
            obtain ⟨hr', hd⟩ := ih IHv' hrest
            constructor
            · simp [replSpec, hl, hr']
            · simp [fillDefaults, hl, hdf, hd]
        | none =>
          rw [hdf] at h
          obtain ⟨hr', hd⟩ := ih IHv' h
          constructor
          · simp [replSpec, hl, hr']
          · simp [fillDefaults, hl, hdf, hd]

theorem itemsA {item : SchemaNode} :
    ∀ {xs : List JsValue} {idx : Nat} {ys : List JsValue},
      (∀ x out', x ∈ xs → validate item x = .ok out' →
        out' = normSpec item x) →
      validateItems item xs idx = .ok ys → ys = xs.map (normSpec item) := by
  intro xs
  induction xs with
  | nil =>
    intro idx ys _ h
    rw [validateItems_nil] at h
    cases h
    rfl
  | cons x xs' ih =>
    intro idx ys IHv h
    rw [validateItems_cons] at h
    cases hv : validate item x with
    | error e => rw [hv] at h; simp at h
    | ok y =>
      rw [hv] at h
      cases hrest : validateItems item xs' (idx + 1) with
      | error e => rw [hrest] at h; simp at h
      | ok ys' =>
        rw [hrest] at h
        cases h
        rw [List.map_cons]
        rw [IHv x y (List.mem_cons_self _ _) hv,
          ih (fun x' out' hm => IHv x' out' (List.mem_cons_of_mem _ hm)) hrest]

theorem validateA : ∀ N : Nat, ∀ s v out, s.size + v.size ≤ N →
    validate s v = .ok out → out = normSpec s v := by
  intro N
  induction N using Nat.strong_induction_on with
  | _ N ih =>
  intro s v out hN hok
  obtain ⟨kind, en, lo, hi, minI, maxI, dflt, req, props, itms⟩ := s
  cases v with
  | num q =>
    rw [validate_num] at hok
    split at hok
    · split at hok
      · split at hok
        · cases hok; exact (normSpec_num _ q).symm
        · simp at hok
      · simp at hok
    · simp at hok
  | str t =>
    rw [validate_str] at hok
    split at hok
    · split at hok
      · cases hok; exact (normSpec_str _ t).symm
      · simp at hok
    · simp at hok
  | bool b =>
    rw [validate_bool] at hok
    split at hok
    · split at hok
      · cases hok; exact (normSpec_bool _ b).symm
      · simp at hok
    · simp at hok
  | null =>
    rw [validate_null] at hok
    split at hok
    · split at hok
      · cases hok; exact (normSpec_null _).symm
      · simp at hok
    · simp at hok
  | arr xs =>
    cases itms with
    | none =>
      rw [validate_arrNone] at hok
      split at hok
      · split at hok
        · split at hok
          · cases hok
            rw [normSpec_arr]
            simp [SchemaNode.items]
          · simp at hok
        · simp at hok
      · simp at hok
    | some item =>
      rw [validate_arr] at hok
      split at hok
      · split at hok
        · split at hok
          · cases hit : validateItems item xs 0 with
            | error e => rw [hit] at hok; simp at hok
            | ok ys =>
              rw [hit] at hok
              cases hok
              have IHv : ∀ x out', x ∈ xs → validate item x = .ok out' →
                  out' = normSpec item x := by
                intro x out' hm hx
                have hxm := mem_sizeList_lt hm
                exact ih (item.size + x.size)
                  (by rw [schemaSize_mkSome, vsize_arr] at hN
                      have := sizeProps_pos props; omega)
                  item x out' (le_refl _) hx
              rw [normSpec_arr]
              simp only [SchemaNode.items]
              exact congrArg JsValue.arr (itemsA IHv hit)
          · simp at hok
        · simp at hok
      · simp at hok
  | obj fields =>
    rw [validate_obj] at hok
    split at hok
    · split at hok
      · cases hp : validateProps props req fields with
        | error e => rw [hp] at hok; simp at hok
        | ok rf =>
          obtain ⟨repl, filled⟩ := rf
          rw [hp] at hok
          cases hok
          have IHv : ∀ k c w out', (k, c) ∈ props →
              List.lookup k fields = some w →
              validate c w = .ok out' → out' = normSpec c w := by
            intro k c w out' hm hl hvw
            have h1 : c.size < sizeProps props := mem_props_size_lt hm
            have h2 : w.size < sizeFields fields := lookup_size_lt hl
            exact ih (c.size + w.size)
              (by rw [schemaSize_mk, vsize_obj] at hN; omega)
              c w out' (le_refl _) hvw
          obtain ⟨hr, hf⟩ := propsA IHv hp
          rw [normSpec_obj]
          simp only [SchemaNode.properties]
          subst hr hf
          rw [applyRepl_replSpec props fields fields
            (fun p hp' => lookup_isSome_of_mem hp')]
      · simp at hok
    · simp at hok


/-! ## Generic association-list lemmas -/

theorem lookup_none_iff {β : Type} (k : String) (l : List (String × β)) :
    List.lookup k l = none ↔ k ∉ l.map Prod.fst := by
  induction l with
  | nil => simp [List.lookup]
  | cons p ps ih =>
    obtain ⟨k', v'⟩ := p
    cases hb : (k == k') with
    | true =>
      have : k = k' := by simpa using hb
      subst this
      simp [List.lookup, hb]
    | false =>
      have hne : ¬ k = k' := by simpa using hb
      simp [List.lookup, hb, ih, hne]

theorem mem_of_lookup {β : Type} {k : String} {l : List (String × β)}
    {v : β} (h : List.lookup k l = some v) : (k, v) ∈ l := by
  induction l with
  | nil => simp [List.lookup] at h
  | cons p ps ih =>
    obtain ⟨k', v'⟩ := p
    cases hb : (k == k') with
    | true =>
      have : k = k' := by simpa using hb
      subst this
      rw [List.lookup, hb] at h
      cases h
      exact List.mem_cons_self _ _
    | false =>
      rw [List.lookup, hb] at h
      exact List.mem_cons_of_mem _ (ih h)

theorem lookup_of_mem_nodup {β : Type} {k : String} {l : List (String × β)}
    {v : β} (hN : (l.map Prod.fst).Nodup) (h : (k, v) ∈ l) :
    List.lookup k l = some v := by
  induction l with
  | nil => cases h
  | cons p ps ih =>
    obtain ⟨k', v'⟩ := p
    rw [List.map_cons, List.nodup_cons] at hN
    rcases List.mem_cons.mp h with h' | h'
    · cases h'
      simp [List.lookup]
    · have hne : k ≠ k' := by
        intro hkk
        subst hkk
        exact hN.1 (List.mem_map.mpr ⟨(k, v), h', rfl⟩)
      rw [List.lookup, show (k == k') = false by simpa using hne]
      exact ih hN.2 h'

theorem map_eq_self_of {α : Type} {l : List α} {f : α → α}
    (h : ∀ a ∈ l, f a = a) : l.map f = l := by
  induction l with
  | nil => rfl
  | cons a as ih =>
    rw [List.map_cons, h a (List.mem_cons_self _ _),
      ih (fun a' ha' => h a' (List.mem_cons_of_mem _ ha'))]

/-! ## Lookup characterizations of the normalized object -/

theorem fillDefaults_keys_sublist (props : List (String × SchemaNode))
    (fields : List (String × JsValue)) :
    ((fillDefaults props fields).map Prod.fst).Sublist (props.map Prod.fst) := by
  induction props with
  | nil => simp [fillDefaults]
  | cons p ps ih =>
    obtain ⟨k, c⟩ := p
    rw [List.map_cons]
    cases hl : List.lookup k fields with
    | some w =>
      simp only [fillDefaults, hl]
      exact ih.cons _
    | none =>
      cases hd : c.dflt with
      | some d =>
        simp only [fillDefaults, hl, hd, List.map_cons]
        exact ih.cons₂ _
      | none =>
        simp only [fillDefaults, hl, hd]
        exact ih.cons _

theorem lookup_fillDefaults {props : List (String × SchemaNode)}
    (hN : (props.map Prod.fst).Nodup) (k : String)
    (fields : List (String × JsValue)) :
    List.lookup k (fillDefaults props fields) =
      match List.lookup k props, List.lookup k fields with
      | some c, none => c.dflt
      | _, _ => none := by
  induction props with
  | nil =>
    simp only [fillDefaults, List.lookup]
  | cons p ps ih =>
    obtain ⟨k', c⟩ := p
    rw [List.map_cons, List.nodup_cons] at hN
    cases hb : (k == k') with
    | true =>
      have hk : k = k' := by simpa using hb
      subst hk
      cases hl : List.lookup k fields with
      | some w =>
        simp only [fillDefaults, hl, List.lookup, hb]
        rw [ih hN.2]
        have : List.lookup k ps = none :=
          (lookup_none_iff k ps).mpr (by
            intro hmem
            exact hN.1 hmem)
        rw [this, hl]
      | none =>
        cases hd : c.dflt with
        | some d => simp [fillDefaults, hl, hd, List.lookup, hb]
        | none =>
          simp only [fillDefaults, hl, hd, List.lookup, hb]
          rw [ih hN.2]
          have : List.lookup k ps = none :=
            (lookup_none_iff k ps).mpr (by
              intro hmem
              exact hN.1 hmem)
          rw [this, hl]
    | false =>
      cases hl : List.lookup k' fields with
      | some w =>
        simp only [fillDefaults, hl]
        rw [ih hN.2]
        simp only [List.lookup, hb]
      | none =>
        cases hd : c.dflt with
        | some d =>
          simp only [fillDefaults, hl, hd, List.lookup, hb]
          rw [ih hN.2]
        | none =>
          simp only [fillDefaults, hl, hd]
          rw [ih hN.2]
          simp only [List.lookup, hb]

theorem lookup_normFields (g : SchemaNode → JsValue → JsValue)
    (props : List (String × SchemaNode)) (k : String)
    (fields rest : List (String × JsValue)) :
    List.lookup k (normFields g props fields rest) =
      (List.lookup k rest).map (fun w =>
        match List.lookup k props with
        | some c => g c ((List.lookup k fields).getD w)
        | none => w) := by
  induction rest with
  | nil => simp [normFields, List.lookup]
  | cons p rs ih =>
    obtain ⟨k', v⟩ := p
    rw [show normFields g props fields ((k', v) :: rs) =
        (match List.lookup k' props with
         | some c => (k', g c ((List.lookup k' fields).getD v))
         | none => (k', v)) :: normFields g props fields rs from rfl]
    cases hb : (k == k') with
    | true =>
      have hk : k = k' := by simpa using hb
      subst hk
      cases hc : List.lookup k props with
      | some c => simp [List.lookup, hb, hc]
      | none => simp [List.lookup, hb, hc]
    | false =>
      cases hc : List.lookup k' props with
      | some c =>
        simp only [List.lookup, hb]
        exact ih
      | none =>
        simp only [List.lookup, hb]
        exact ih

/-! ## Kind inversions -/

theorem kindMatches_obj {kind : SchemaKind} {fields : List (String × JsValue)}
    (h : kindMatches kind (.obj fields) = true) : kind = .object := by
  cases kind <;> simp [kindMatches] at h ⊢

theorem kindMatches_arr {kind : SchemaKind} {xs : List JsValue}
    (h : kindMatches kind (.arr xs) = true) : kind = .array := by
  cases kind <;> simp [kindMatches] at h ⊢

/-! ## Extraction from a successful walk -/

theorem propsOK {props : List (String × SchemaNode)} {req : List String}
    {fields : List (String × JsValue)}
    {rf : List (String × JsValue) × List (String × JsValue)}
    (h : validateProps props req fields = .ok rf) :
    ∀ k c w, (k, c) ∈ props → List.lookup k fields = some w →
      ∃ w', validate c w = .ok w' := by
  induction props generalizing rf with
  | nil => intro k c w hm; cases hm
  | cons p ps ih =>
    obtain ⟨k', c'⟩ := p
    intro k c w hm hl
    cases hl' : List.lookup k' fields with
    | some w' =>
      rw [validateProps_cons_present c' ps req hl'] at h
      cases hv : validate c' w' with
      | error e => rw [hv] at h; simp at h
      | ok w'' =>
        rw [hv] at h
        cases hrest : validateProps ps req fields with
        | error e => rw [hrest] at h; simp at h
        | ok rd =>
          rcases List.mem_cons.mp hm with hm' | hm'
          · cases hm'
            rw [hl'] at hl
            cases hl
            exact ⟨w'', hv⟩
          · exact ih hrest k c w hm' hl
    | none =>
      rw [validateProps_cons_absent c' ps req hl'] at h
      by_cases hr : k' ∈ req
      · rw [if_pos hr] at h; simp at h
      · rw [if_neg hr] at h
        rcases List.mem_cons.mp hm with hm' | hm'
        · cases hm'
          rw [hl'] at hl
          cases hl
        · cases hd : c'.dflt with
          | some d =>
            rw [hd] at h
            cases hrest : validateProps ps req fields with
            | error e => rw [hrest] at h; simp at h
            | ok rd => exact ih hrest k c w hm' hl
          | none =>
            rw [hd] at h
            exact ih h k c w hm' hl

theorem propsReq {props : List (String × SchemaNode)} {req : List String}
    {fields : List (String × JsValue)}
    {rf : List (String × JsValue) × List (String × JsValue)}
    (h : validateProps props req fields = .ok rf) :
    ∀ k c, (k, c) ∈ props → List.lookup k fields = none → k ∉ req := by
  induction props generalizing rf with
  | nil => intro k c hm; cases hm
  | cons p ps ih =>
    obtain ⟨k', c'⟩ := p
    intro k c hm hl
    cases hl' : List.lookup k' fields with
    | some w' =>
      rw [validateProps_cons_present c' ps req hl'] at h
      cases hv : validate c' w' with
      | error e => rw [hv] at h; simp at h
      | ok w'' =>
        rw [hv] at h
        cases hrest : validateProps ps req fields with
        | error e => rw [hrest] at h; simp at h
        | ok rd =>
          rcases List.mem_cons.mp hm with hm' | hm'
          · cases hm'
            rw [hl'] at hl
            cases hl
          · exact ih hrest k c hm' hl
    | none =>
      rw [validateProps_cons_absent c' ps req hl'] at h
      by_cases hr : k' ∈ req
      · rw [if_pos hr] at h; simp at h
      · rw [if_neg hr] at h
        rcases List.mem_cons.mp hm with hm' | hm'
        · cases hm'
          exact hr
        · cases hd : c'.dflt with
          | some d =>
            rw [hd] at h
            cases hrest : validateProps ps req fields with
            | error e => rw [hrest] at h; simp at h
            | ok rd => exact ih hrest k c hm' hl
          | none =>
            rw [hd] at h
            exact ih h k c hm' hl

theorem itemsOK {item : SchemaNode} :
    ∀ {xs : List JsValue} {idx : Nat} {ys : List JsValue},
      validateItems item xs idx = .ok ys →
      ∀ y ∈ ys, ∃ x ∈ xs, validate item x = .ok y := by
  intro xs
  induction xs with
  | nil =>
    intro idx ys h
    rw [validateItems_nil] at h
    cases h
    intro y hy
    cases hy
  | cons x xs' ih =>
    intro idx ys h
    rw [validateItems_cons] at h
    cases hv : validate item x with
    | error e => rw [hv] at h; simp at h
    | ok y =>
      rw [hv] at h
      cases hrest : validateItems item xs' (idx + 1) with
      | error e => rw [hrest] at h; simp at h
      | ok ys' =>
        rw [hrest] at h
        cases h
        intro y' hy'
        rcases List.mem_cons.mp hy' with h' | h'
        · subst h'
          exact ⟨x, List.mem_cons_self _ _, hv⟩
        · obtain ⟨x', hx', hvx'⟩ := ih hrest y' h'
          exact ⟨x', List.mem_cons_of_mem _ hx', hvx'⟩


/-! ## Fixpoint walks -/

theorem schemaWF_dflt {c : SchemaNode} {d : JsValue} (h : schemaWF c)
    (hd : c.dflt = some d) : validate c d = .ok d := by
  obtain ⟨kind, en, lo, hi, minI, maxI, dflt, req, props, itms⟩ := c
  exact (schemaWF_parts h).2.2.1 d hd

theorem fill_mem {props : List (String × SchemaNode)}
    {fields : List (String × JsValue)} {k : String} {d : JsValue}
    (h : (k, d) ∈ fillDefaults props fields) :
    List.lookup k fields = none ∧ ∃ c, (k, c) ∈ props ∧ c.dflt = some d := by
  induction props with
  | nil => simp [fillDefaults] at h
  | cons p ps ih =>
    obtain ⟨k', c'⟩ := p
    cases hl : List.lookup k' fields with
    | some w =>
      rw [show fillDefaults ((k', c') :: ps) fields =
          fillDefaults ps fields by simp [fillDefaults, hl]] at h
      obtain ⟨h1, c, h2, h3⟩ := ih h
      exact ⟨h1, c, List.mem_cons_of_mem _ h2, h3⟩
    | none =>
      cases hd : c'.dflt with
      | some d' =>
        rw [show fillDefaults ((k', c') :: ps) fields =
            (k', d') :: fillDefaults ps fields by simp [fillDefaults, hl, hd]] at h
        rcases List.mem_cons.mp h with h' | h'
        · cases h'
          exact ⟨hl, c', List.mem_cons_self _ _, hd⟩
        · obtain ⟨h1, c, h2, h3⟩ := ih h'
          exact ⟨h1, c, List.mem_cons_of_mem _ h2, h3⟩
      | none =>
        rw [show fillDefaults ((k', c') :: ps) fields =
            fillDefaults ps fields by simp [fillDefaults, hl, hd]] at h
        obtain ⟨h1, c, h2, h3⟩ := ih h
        exact ⟨h1, c, List.mem_cons_of_mem _ h2, h3⟩

theorem itemsB {item : SchemaNode} :
    ∀ {ys : List JsValue} {idx : Nat},
      (∀ y ∈ ys, validate item y = .ok y) →
      validateItems item ys idx = .ok ys := by
  intro ys
  induction ys with
  | nil => intro idx _; exact validateItems_nil item idx
  | cons y ys' ih =>
    intro idx h
    rw [validateItems_cons, h y (List.mem_cons_self _ _),
      ih (fun y' hy' => h y' (List.mem_cons_of_mem _ hy'))]

theorem propsB {props : List (String × SchemaNode)} {req : List String}
    {fields' : List (String × JsValue)}
    (hN : (props.map Prod.fst).Nodup)
    (hlook : ∀ k c, List.lookup k props = some c →
      (match List.lookup k fields' with
       | some w => validate c w = .ok w
       | none => k ∉ req ∧ c.dflt = none)) :
    ∃ repl₂, validateProps props req fields' = .ok (repl₂, []) ∧
      ∀ k, List.lookup k repl₂ =
        (List.lookup k props).bind (fun _ => List.lookup k fields') := by
  induction props with
  | nil =>
    refine ⟨[], validateProps_nil req fields', ?_⟩
    intro k
    simp [List.lookup]
  | cons p ps ih =>
    obtain ⟨k, c⟩ := p
    rw [List.map_cons, List.nodup_cons] at hN
    have hlook' : ∀ k' c', List.lookup k' ps = some c' →
        (match List.lookup k' fields' with
         | some w => validate c' w = .ok w
         | none => k' ∉ req ∧ c'.dflt = none) := by
      intro k' c' hl'
      have hk'k : (k' == k) = false := by
        have : k' ∈ ps.map Prod.fst :=
          List.mem_map.mpr ⟨(k', c'), mem_of_lookup hl', rfl⟩
        have hne : k' ≠ k := fun he => hN.1 (he ▸ this)
        simpa using hne
      refine hlook k' c' ?_
      rw [List.lookup, hk'k]
      exact hl'
    obtain ⟨r₂, hr₂, hpt⟩ := ih hN.2 hlook'
    have hself : List.lookup k ((k, c) :: ps) = some c := by
      simp [List.lookup]
    have hkc := hlook k c hself
    have hkps : List.lookup k ps = none :=
      (lookup_none_iff k ps).mpr hN.1
    cases hl : List.lookup k fields' with
    | some w =>
      rw [hl] at hkc
      refine ⟨(k, w) :: r₂, ?_, ?_⟩
      · rw [validateProps_cons_present c ps req hl, hkc, hr₂]
      · intro k'
        cases hb : (k' == k) with
        | true =>
          have hk' : k' = k := by simpa using hb
          subst hk'
          rw [List.lookup, hb, hself, hl]
          rfl
        | false =>
          rw [List.lookup, hb, hpt k', List.lookup, hb]
    | none =>
      rw [hl] at hkc
      refine ⟨r₂, ?_, ?_⟩
      · rw [validateProps_cons_absent c ps req hl, if_neg hkc.1, hkc.2, hr₂]
      · intro k'
        cases hb : (k' == k) with
        | true =>
          have hk' : k' = k := by simpa using hb
          subst hk'
          rw [hpt k', hkps, hself, hl]
          rfl
        | false =>
          rw [hpt k', List.lookup, hb]


/-! ## Idempotence: revalidating a normalized value returns it unchanged -/

theorem validateB : ∀ N : Nat, ∀ s v out, s.size + v.size ≤ N →
    schemaWF s → validate s v = .ok out → validate s out = .ok out := by
  intro N
  induction N using Nat.strong_induction_on with
  | _ N ih =>
  intro s v out hN hwf hok
  have hok0 := hok
  obtain ⟨kind, en, lo, hi, minI, maxI, dflt, req, props, itms⟩ := s
  obtain ⟨hEn, hNodup, hDflt, hChild, hItems⟩ := schemaWF_parts hwf
  cases v with
  | num q =>
    rw [validate_num] at hok
    split at hok
    · split at hok
      · split at hok
        · cases hok; exact hok0
        · simp at hok
      · simp at hok
    · simp at hok
  | str t =>
    rw [validate_str] at hok
    split at hok
    · split at hok
      · cases hok; exact hok0
      · simp at hok
    · simp at hok
  | bool b =>
    rw [validate_bool] at hok
    split at hok
    · split at hok
      · cases hok; exact hok0
      · simp at hok
    · simp at hok
  | null =>
    rw [validate_null] at hok
    split at hok
    · split at hok
      · cases hok; exact hok0
      · simp at hok
    · simp at hok
  | arr xs =>
    cases itms with
    | none =>
      rw [validate_arrNone] at hok
      split at hok
      · split at hok
        · split at hok
          · cases hok; exact hok0
          · simp at hok
        · simp at hok
      · simp at hok
    | some item =>
      rw [validate_arr] at hok
      split at hok
      case isTrue hk =>
        split at hok
        case isTrue hE =>
          split at hok
          case isTrue hL =>
            cases hit : validateItems item xs 0 with
            | error e => rw [hit] at hok; simp at hok
            | ok ys =>
              rw [hit] at hok
              cases hok
              obtain rfl : kind = .array := kindMatches_arr hk
              obtain rfl : en = none := hEn (Or.inr rfl)
              have hys : ys = xs.map (normSpec item) := by
                have := validateA ((SchemaNode.mk .array none lo hi minI maxI
                    dflt req props (some item)).size + (JsValue.arr xs).size)
                  _ _ _ (le_refl _) hok0
                rw [normSpec_arr] at this
                simp only [SchemaNode.items] at this
                exact congrArg (fun w => match w with
                  | JsValue.arr l => l
                  | _ => []) this
              have hlen : ys.length = xs.length := by
                rw [hys, List.length_map]
              have hfix : ∀ y ∈ ys, validate item y = .ok y := by
                intro y hy
                obtain ⟨x, hx, hvx⟩ := itemsOK hit y hy
                have hb : item.size + x.size < N := by
                  rw [schemaSize_mkSome, vsize_arr] at hN
                  have := mem_sizeList_lt hx
                  have := sizeProps_pos props
                  omega
                exact ih (item.size + x.size) hb item x y (le_refl _)
                  (hItems item rfl) hvx
              rw [validate_arr]
              rw [if_pos (show kindMatches SchemaKind.array (JsValue.arr ys) =
                true from rfl)]
              rw [if_pos (show (match (none : Option (List JsValue)) with
                | some es => es.any (jsEq (JsValue.arr ys))
                | none => true) = true from rfl)]
              rw [if_pos (show lenOK minI maxI ys.length = true by
                rw [hlen]; exact hL)]
              rw [itemsB hfix]
          case isFalse h => simp at hok
        case isFalse h => simp at hok
      case isFalse h => simp at hok
  | obj fields =>
    rw [validate_obj] at hok
    split at hok
    case isTrue hk =>
      split at hok
      case isTrue hE =>
        cases hp : validateProps props req fields with
        | error e => rw [hp] at hok; simp at hok
        | ok rf =>
          obtain ⟨repl, filled⟩ := rf
          rw [hp] at hok
          cases hok
          obtain rfl : kind = .object := kindMatches_obj hk
          obtain rfl : en = none := hEn (Or.inl rfl)
          have IHv : ∀ k c w out', (k, c) ∈ props →
              List.lookup k fields = some w →
              validate c w = .ok out' → out' = normSpec c w :=
            fun k c w out' _ _ hv =>
              validateA (c.size + w.size) c w out' (le_refl _) hv
          obtain ⟨hr, hf⟩ := propsA IHv hp
          subst hr hf
          rw [applyRepl_replSpec props fields fields
            (fun p hp' => lookup_isSome_of_mem hp')]
          have hMl : ∀ k, List.lookup k
              (normFields normSpec props fields fields) =
              (List.lookup k fields).map (fun w =>
                match List.lookup k props with
                | some c => normSpec c ((List.lookup k fields).getD w)
                | none => w) :=
            fun k => lookup_normFields normSpec props k fields fields
          have hFl : ∀ k, List.lookup k (fillDefaults props fields) =
              match List.lookup k props, List.lookup k fields with
              | some c, none => c.dflt
              | _, _ => none :=
            fun k => lookup_fillDefaults hNodup k fields
          have houtP : ∀ k c w, List.lookup k props = some c →
              List.lookup k fields = some w →
              List.lookup k (normFields normSpec props fields fields ++
                fillDefaults props fields) = some (normSpec c w) := by
            intro k c w hc hw
            rw [lookup_append, hMl k, hw, hc]
            rfl
          have houtD : ∀ k c, List.lookup k props = some c →
              List.lookup k fields = none →
              List.lookup k (normFields normSpec props fields fields ++
                fillDefaults props fields) = c.dflt := by
            intro k c hc hw
            rw [lookup_append, hMl k, hw, hFl k, hc, hw]
            rfl
          have huni : ∀ pk pd, (pk, pd) ∈
                (normFields normSpec props fields fields ++
                 fillDefaults props fields) → ∀ c,
              List.lookup pk props = some c →
              List.lookup pk (normFields normSpec props fields fields ++
                fillDefaults props fields) = some pd := by
            intro pk pd hpmem c hc
            rcases List.mem_append.mp hpmem with hpm | hpm
            · obtain ⟨q, hq, hfq⟩ := List.mem_map.mp hpm
              cases hcq : List.lookup q.1 props with
              | none =>
                have hq2 : q = (pk, pd) := by
                  rw [hcq] at hfq
                  exact hfq
                have hqn : List.lookup pk props = none := by
                  rw [hq2] at hcq
                  exact hcq
                rw [hc] at hqn
                cases hqn
              | some c0 =>
                rw [hcq] at hfq
                have hk1 : q.1 = pk := congrArg Prod.fst hfq
                have hv1 : normSpec c0 ((List.lookup q.1 fields).getD q.2) =
                    pd := congrArg Prod.snd hfq
                rw [hk1, hc] at hcq
                injection hcq with hcc
                subst hcc
                have hsome : (List.lookup pk fields).isSome = true := by
                  have := lookup_isSome_of_mem hq
                  rw [hk1] at this
                  exact this
                obtain ⟨w_f, hw_f⟩ := Option.isSome_iff_exists.mp hsome
                rw [hk1, hw_f, Option.getD_some] at hv1
                rw [houtP pk c w_f hc hw_f, hv1]
            · obtain ⟨hnone, c', hc', hd'⟩ := fill_mem hpm
              have hcc : List.lookup pk props = some c' :=
                lookup_of_mem_nodup hNodup hc'
              rw [hc] at hcc
              injection hcc with hcc'
              subst hcc'
              rw [houtD pk c hc hnone, hd']
          have hlook : ∀ k c, List.lookup k props = some c →
              (match List.lookup k
                  (normFields normSpec props fields fields ++
                   fillDefaults props fields) with
               | some w => validate c w = .ok w
               | none => k ∉ req ∧ c.dflt = none) := by
            intro k c hc
            cases hw : List.lookup k fields with
            | some w_f =>
              rw [houtP k c w_f hc hw]
              obtain ⟨w', hv⟩ :=
                propsOK hp k c w_f (mem_of_lookup hc) hw
              have hA : w' = normSpec c w_f :=
                validateA (c.size + w_f.size) c w_f w' (le_refl _) hv
              have hb : c.size + w_f.size < N := by
                rw [schemaSize_mk, vsize_obj] at hN
                have := mem_props_size_lt (mem_of_lookup hc)
                have := lookup_size_lt hw
                omega
              have hB := ih (c.size + w_f.size) hb c w_f w' (le_refl _)
                (hChild k c (mem_of_lookup hc)) hv
              rw [hA] at hB
              exact hB
            | none =>
              cases hdc : c.dflt with
              | some d =>
                rw [houtD k c hc hw, hdc]
                exact schemaWF_dflt (hChild k c (mem_of_lookup hc)) hdc
              | none =>
                rw [houtD k c hc hw, hdc]
                exact ⟨propsReq hp k c (mem_of_lookup hc) hw, rfl⟩
          obtain ⟨repl₂, hP2, hpt⟩ := propsB hNodup hlook
          have happly : applyRepl repl₂
              (normFields normSpec props fields fields ++
               fillDefaults props fields) =
              normFields normSpec props fields fields ++
               fillDefaults props fields := by
            apply map_eq_self_of
            intro p hpmem
            obtain ⟨pk, pd⟩ := p
            cases hcp : List.lookup pk props with
            | none =>
              have hr2 : List.lookup pk repl₂ = none := by
                rw [hpt pk, hcp]
                rfl
              show (match List.lookup pk repl₂ with
                | some v' => (pk, v')
                | none => (pk, pd)) = (pk, pd)
              rw [hr2]
            | some c =>
              have hu := huni pk pd hpmem c hcp
              have hr2 : List.lookup pk repl₂ = some pd := by
                rw [hpt pk, hcp]
                exact hu
              show (match List.lookup pk repl₂ with
                | some v' => (pk, v')
                | none => (pk, pd)) = (pk, pd)
              rw [hr2]
          rw [validate_obj]
          rw [if_pos (show kindMatches SchemaKind.object
            (JsValue.obj (normFields normSpec props fields fields ++
              fillDefaults props fields)) = true from rfl)]
          rw [if_pos (show (match (none : Option (List JsValue)) with
            | some es => es.any (jsEq (JsValue.obj
                (normFields normSpec props fields fields ++
                 fillDefaults props fields)))
            | none => true) = true from rfl)]
          rw [hP2]
          show Except.ok (JsValue.obj (applyRepl repl₂
              (normFields normSpec props fields fields ++
               fillDefaults props fields) ++ [])) =
            Except.ok (JsValue.obj (normFields normSpec props fields fields ++
               fillDefaults props fields))
          rw [List.append_nil, happly]
      case isFalse h => simp at hok
    case isFalse h => simp at hok


/-! ## Support lemmas for the claim theorems -/

theorem allModulesWF : allToolModules.all moduleWF = true := by rfl

theorem schemaWF_of_module {m : ToolModule} (h : m ∈ allToolModules) :
    schemaWF m.parameters :=
  List.all_eq_true.mp allModulesWF m h

theorem lookup_boundArgs (pat : List (String × Option JsValue))
    (args : List (String × JsValue)) (k : String) :
    List.lookup k (boundArgs pat args) =
      (List.lookup k pat).map (fun dfl =>
        match List.lookup k args with
        | some v => some v
        | none => dfl) := by
  induction pat with
  | nil => rfl
  | cons p ps ih =>
    obtain ⟨k', d'⟩ := p
    rw [show boundArgs ((k', d') :: ps) args =
      (k', match List.lookup k' args with
           | some v => some v
           | none => d') :: boundArgs ps args from rfl]
    cases hb : (k == k') with
    | true =>
      have hk : k = k' := eq_of_beq hb
      subst hk
      simp only [List.lookup, hb]
      rfl
    | false =>
      simp only [List.lookup, hb]
      exact ih

theorem validate_num_err {c : SchemaNode} {q : Rat}
    (hk : kindMatches c.kind (.num q) = true) (he : c.enum = none)
    (hb : boundsOK c.minimum c.maximum q = false) :
    validate c (.num q) = .error (.outOfRange [] c.minimum c.maximum) := by
  obtain ⟨kind, en, lo, hi, minI, maxI, dflt, req, props, itms⟩ := c
  simp only [SchemaNode.kind, SchemaNode.enum, SchemaNode.minimum,
    SchemaNode.maximum] at hk he hb ⊢
  subst he
  rw [validate_num, if_pos hk]
  rw [if_pos (show (match (none : Option (List JsValue)) with
    | some es => es.any (jsEq (JsValue.num q))
    | none => true) = true from rfl)]
  simp [hb]

theorem propsErrHead {k : String} {fields : List (String × JsValue)}
    {w : JsValue} {e : VErr} (c : SchemaNode) (ps : List (String × SchemaNode))
    (req : List String) (hl : List.lookup k fields = some w)
    (hv : validate c w = .error e) :
    validateProps ((k, c) :: ps) req fields = .error (e.prep k) := by
  rw [validateProps_cons_present c ps req hl, hv]

theorem propsErrPre : ∀ (pre rest : List (String × SchemaNode))
    (req : List String) (fields : List (String × JsValue)) (e : VErr),
    (∀ p ∈ pre, propNoErr req fields p) →
    validateProps rest req fields = .error e →
    validateProps (pre ++ rest) req fields = .error e := by
  intro pre
  induction pre with
  | nil => intro rest req fields e _ h; exact h
  | cons p ps ih =>
    intro rest req fields e hno h
    obtain ⟨k, c⟩ := p
    have hp := hno (k, c) (List.mem_cons_self _ _)
    have htail := ih rest req fields e
      (fun p' hp' => hno p' (List.mem_cons_of_mem _ hp')) h
    rw [List.cons_append]
    cases hl : List.lookup k fields with
    | some w =>
      have hex : ∃ w', validate c w = .ok w' := by
        have h2 := hp
        simp only [propNoErr, hl] at h2
        exact h2
      obtain ⟨w', hv⟩ := hex
      rw [validateProps_cons_present c (ps ++ rest) req hl, hv, htail]
    | none =>
      have hnr : k ∉ req := by
        have h2 := hp
        simp only [propNoErr, hl] at h2
        exact h2
      rw [validateProps_cons_absent c (ps ++ rest) req hl, if_neg hnr]
      cases hd : c.dflt with
      | some d => rw [htail]
      | none => exact htail

theorem dispatchInvalid {r : Registry} {creq : CallRequest}
    {d : ToolDescriptor} {e : VErr}
    (hf : r.find? (fun d' => d'.name == creq.toolName) = some d)
    (hv : validate d.parameterSchema (.obj creq.arguments) = .error e) :
    Dispatcher.call r creq = .error .invalidArguments e.message := by
  simp only [Dispatcher.call, hf, hv]


/-! ## The claims -/

/-- C1: every call returns a `CallResult`; a failure raised by the invoked
handler — including the `ReferenceError` the `part_002` handler raises by
reading `processss.env` before its own `try` block — is caught and
converted to a `HandlerFailed` error envelope, and the dispatcher remains
alive: the calls after it are each processed exactly as they would be on
their own. -/
theorem claim_C1 (r : Registry) (creq : CallRequest) (d : ToolDescriptor)
    (na : JsValue) (msg : String) (rest : List CallRequest)
    (hf : r.find? (fun d' => d'.name == creq.toolName) = some d)
    (hv : validate d.parameterSchema (.obj creq.arguments) = .ok na)
    (hh : d.handler na = .thrown msg) :
    Dispatcher.call r creq = .error .handlerFailed msg ∧
    Dispatcher.callAll r (creq :: rest) =
      .error .handlerFailed msg :: rest.map (Dispatcher.call r) := by
  have h1 : Dispatcher.call r creq = .error .handlerFailed msg := by
    simp only [Dispatcher.call, hf, hv, hh]
  refine ⟨h1, ?_⟩
  rw [Dispatcher.callAll, List.map_cons, h1]

theorem claim_C1_witness :
    Dispatcher.call demoRegistry ⟨"GenerateImage", [("prompt", .str "cat")]⟩ =
      .error .handlerFailed "processss is not defined" ∧
    Dispatcher.callAll demoRegistry
      [⟨"GenerateImage", [("prompt", .str "cat")]⟩,
       ⟨"GetGeneration", [("generation_id", .str "g1")]⟩] =
      [.error .handlerFailed "processss is not defined",
       .success (.obj [("id", .str "gen-1")])] := by
  have h := claim_C1 demoRegistry ⟨"GenerateImage", [("prompt", .str "cat")]⟩
    part002Descriptor (.obj [("prompt", .str "cat")])
    "processss is not defined"
    [⟨"GetGeneration", [("generation_id", .str "g1")]⟩] rfl rfl rfl
  exact ⟨h.1, h.2.trans rfl⟩

/-- C2: at every reachable registry state the registered names are
pairwise distinct, and `register` of a descriptor whose name is already
present — as with the four modules all declaring the name
`GenerateImage` — fails with `DuplicateToolName`, returning an error and
no successor state, so the registry is left exactly as it was. -/
theorem claim_C2 (r : Registry) (hr : Reachable r) :
    (r.map ToolDescriptor.name).Nodup ∧
    ∀ d : ToolDescriptor, d.name ∈ r.map ToolDescriptor.name →
      register r d = .error .duplicateToolName := by
  constructor
  · induction hr with
    | nil => exact List.nodup_nil
    | step hr0 hreg ih =>
      rename_i r0 r0' d0
      rw [register] at hreg
      split at hreg
      · exact absurd hreg (by simp)
      · rename_i hnot
        injection hreg with hreg'
        subst hreg'
        rw [List.map_append]
        refine ih.append (List.nodup_singleton _) ?_
        intro a ha hb
        rw [List.map_singleton, List.mem_singleton] at hb
        subst hb
        exact hnot ha
  · intro d hd
    rw [register, if_pos hd]

theorem claim_C2_witness :
    ([lumaGenerateImageDescriptor].map ToolDescriptor.name).Nodup ∧
    register [lumaGenerateImageDescriptor]
      (moduleDescriptor part000GenerateImage stubUrlHandler) =
      .error .duplicateToolName := by
  have h := claim_C2 [lumaGenerateImageDescriptor]
    (Reachable.step Reachable.nil rfl)
  exact ⟨h.1,
    h.2 (moduleDescriptor part000GenerateImage stubUrlHandler) (by decide)⟩

/-- C6: when the named tool exists, its arguments validate, and its
handler resolves to a value, the call returns that value wrapped — and
unmodified — in a success envelope. -/
theorem claim_C6 (r : Registry) (creq : CallRequest) (d : ToolDescriptor)
    (na v : JsValue)
    (hf : r.find? (fun d' => d'.name == creq.toolName) = some d)
    (hv : validate d.parameterSchema (.obj creq.arguments) = .ok na)
    (hh : d.handler na = .resolved v) :
    Dispatcher.call r creq = .success v := by
  simp only [Dispatcher.call, hf, hv, hh]

theorem claim_C6_witness :
    Dispatcher.call stubRegistry ⟨"GenerateImage", [("prompt", .str "cat")]⟩ =
      .success (.obj [("url", .str "http://x")]) :=
  claim_C6 stubRegistry ⟨"GenerateImage", [("prompt", .str "cat")]⟩
    lumaGenerateImageDescriptor
    (.obj [("prompt", .str "cat"), ("model", .str "photon-flash-1"),
      ("aspect_ratio", .str "16:9")])
    (.obj [("url", .str "http://x")]) rfl rfl rfl

/-- C7: `describeTools` is exactly the registry projected to name,
description and parameter schema, and is insensitive to every
descriptor's handler: replacing all handlers arbitrarily leaves its
output unchanged, so no handler reference is ever exposed. -/
theorem claim_C7 (r : Registry)
    (f : ToolDescriptor → JsValue → HandlerOutcome) :
    describeTools r =
      r.map (fun d => ToolSummary.mk d.name d.description d.parameterSchema) ∧
    describeTools (r.map (fun d =>
        ToolDescriptor.mk d.name d.description d.parameterSchema (f d))) =
      describeTools r := by
  refine ⟨rfl, ?_⟩
  rw [describeTools, describeTools, List.map_map]
  rfl

/-- C8: every one of the fourteen handlers under `src/tools`, invoked
with its provider API-key environment variable unset, returns the
`{error: "<VAR> environment variable is not set."}` object before
reaching any fetch, whatever the supplied arguments. -/
theorem claim_C8 (t : SrcTool) (ht : t ∈ srcToolHandlers) (env : Env)
    (args : List (String × JsValue)) (hnone : env.get t.envVar = none) :
    t.exec env args =
      .ret (errObj (t.envVar.varName ++
        " environment variable is not set.")) := by
  fin_cases ht <;>
    simp_all [srcToolHandlers, Env.get, EnvVar.varName, truthy,
      lumaGenerateImageExec, lumaGenerateImageWithStyleExec,
      lumaModifyImageExec, lumaGenerateVideoExec,
      lumaGenerateVideoFromImageExec, lumaListGenerationsExec,
      lumaDeleteGenerationExec, openaiUploadFileExec,
      openaiRetrieveFileContentExec, openaiRetrieveFileExec,
      openaiListFilesExec, openaiDeleteFileExec, openaiEditImageExec,
      openaiCreateImageVariationExec]

theorem claim_C8_witness :
    lumaGenerateImageExec ⟨none, none⟩ [] =
      .ret (errObj "LUMA_API_KEY environment variable is not set.") :=
  claim_C8 ⟨.LUMA_API_KEY, lumaGenerateImageExec⟩
    (by rw [srcToolHandlers]; exact List.mem_cons_self _ _)
    ⟨none, none⟩ [] rfl

/-- C10: with the API key present, the `part_003`
`GenerateImageWithReference` handler itself rejects every `image_ref`
that is not an array of 1–4 elements with its own error object and no
fetch, never takes that branch for an in-bounds array, and the bounds it
enforces are the schema's declared `minItems` 1 and `maxItems` 4. -/
theorem claim_C10 (env : Env) (args : List (String × JsValue))
    (hkey : truthy env.lumaApiKey = true) :
    (imageRefOK (List.lookup "image_ref" args) = false →
      part003GenerateImageWithReferenceExec env args =
        .ret (errObj "image_ref must be an array with 1-4 reference images.")) ∧
    (imageRefOK (List.lookup "image_ref" args) = true →
      part003GenerateImageWithReferenceExec env args ≠
        .ret (errObj "image_ref must be an array with 1-4 reference images.")) ∧
    (List.lookup "image_ref"
        part003GenerateImageWithReference.parameters.properties).map
      SchemaNode.minItems = some (some 1) ∧
    (List.lookup "image_ref"
        part003GenerateImageWithReference.parameters.properties).map
      SchemaNode.maxItems = some (some 4) := by
  refine ⟨?_, ?_, rfl, rfl⟩
  · intro hbad
    simp [part003GenerateImageWithReferenceExec, hkey, hbad]
  · intro hgood
    simp [part003GenerateImageWithReferenceExec, hkey, hgood]

theorem claim_C10_witness :
    part003GenerateImageWithReferenceExec ⟨none, some "key"⟩
      [("prompt", .str "p"), ("image_ref", .arr [])] =
      .ret (errObj "image_ref must be an array with 1-4 reference images.") ∧
    part003GenerateImageWithReferenceExec ⟨none, some "key"⟩
      [("prompt", .str "p"),
       ("image_ref", .arr [.obj [("url", .str "u")]])] ≠
      .ret (errObj "image_ref must be an array with 1-4 reference images.") :=
  ⟨(claim_C10 ⟨none, some "key"⟩
      [("prompt", .str "p"), ("image_ref", .arr [])] rfl).1 rfl,
   (claim_C10 ⟨none, some "key"⟩
      [("prompt", .str "p"),
       ("image_ref", .arr [.obj [("url", .str "u")]])] rfl).2.1 rfl⟩


theorem schemaWF_nodup {s : SchemaNode} (h : schemaWF s) :
    (s.properties.map Prod.fst).Nodup := by
  obtain ⟨kind, en, lo, hi, minI, maxI, dflt, req, props, itms⟩ := s
  exact (schemaWF_parts h).2.1

theorem patternDefaults {m : ToolModule} (hm : m ∈ allToolModules)
    {k : String} {c : SchemaNode} {d : JsValue}
    (hmem : (k, c) ∈ m.parameters.properties) (hd : c.dflt = some d) :
    List.lookup k m.pattern = some (some d) := by
  fin_cases hm <;>
    (fin_cases hmem <;>
      simp_all [sStr, sStrE, sStrEnd, sIntR, sNumR, sBoolD, sObj, sArr,
        SchemaNode.dflt, List.lookup])

/-- C3 (amended): an argument object omitting a declared `required` key
never validates — the call is rejected with an `InvalidArguments`
envelope before any handler runs — though the first error reported may
concern an earlier-declared property rather than the omitted key; for
the spec's own example, `GenerateImage` with `prompt` omitted, the error
is `MissingField` at path `prompt`. -/
theorem claim_C3 (props : List (String × SchemaNode)) (rq : List String)
    (fields : List (String × JsValue)) (k : String) (c : SchemaNode)
    (hmem : (k, c) ∈ props) (hreq : k ∈ rq)
    (habs : List.lookup k fields = none) :
    (∀ out, validate (sObj props rq) (.obj fields) ≠ .ok out) ∧
    ∀ (r : Registry) (creq : CallRequest) (d : ToolDescriptor),
      r.find? (fun d' => d'.name == creq.toolName) = some d →
      d.parameterSchema = sObj props rq → creq.arguments = fields →
      ∃ msg, Dispatcher.call r creq = .error .invalidArguments msg := by
  have hnok : ∀ out, validate (sObj props rq) (.obj fields) ≠ .ok out := by
    intro out hok
    rw [sObj, validate_obj] at hok
    split at hok
    · split at hok
      · cases hp : validateProps props rq fields with
        | error e => rw [hp] at hok; simp at hok
        | ok rf =>
          obtain ⟨repl, filled⟩ := rf
          exact propsReq hp k c hmem habs hreq
      · simp at hok
    · simp at hok
  refine ⟨hnok, ?_⟩
  intro r creq d hfind hschema hargs
  cases hv : validate d.parameterSchema (.obj creq.arguments) with
  | ok o =>
    exfalso
    rw [hschema, hargs] at hv
    exact hnok o hv
  | error e => exact ⟨e.message, dispatchInvalid hfind hv⟩

theorem claim_C3_witness :
    (∀ out, validate lumaGenerateImage.parameters (.obj []) ≠ .ok out) ∧
    (∃ msg, Dispatcher.call stubRegistry ⟨"GenerateImage", []⟩ =
      .error .invalidArguments msg) ∧
    validate lumaGenerateImage.parameters (.obj []) =
      .error (.missingField ["prompt"]) := by
  have h := claim_C3 lumaGenerateImage.parameters.properties
    lumaGenerateImage.parameters.required [] "prompt" sStr
    (List.mem_cons_self _ _) (List.mem_cons_self _ _) rfl
  exact ⟨h.1, h.2 stubRegistry ⟨"GenerateImage", []⟩
    lumaGenerateImageDescriptor rfl rfl rfl, rfl⟩

theorem claim_C3_counterexample :
    "prompt" ∈ openaiEditImage.parameters.required ∧
    List.lookup "prompt" ([] : List (String × JsValue)) = none ∧
    validate openaiEditImage.parameters (.obj []) =
      .error (.missingField ["image"]) ∧
    VErr.missingField ["image"] ≠ VErr.missingField ["prompt"] := by
  refine ⟨by decide, rfl, rfl, ?_⟩
  intro h
  injection h with h1
  exact absurd h1 (by decide)

/-- C4 (amended): when every property declared before `k` raises no
error, a numeric value for `k` outside the node's inclusive bounds makes
validation fail with exactly `OutOfRange` at path `k` carrying those
bounds, and the dispatcher rejects the call with an `InvalidArguments`
envelope before any handler runs. -/
theorem claim_C4 (pre rest : List (String × SchemaNode)) (k : String)
    (c : SchemaNode) (rq : List String)
    (fields : List (String × JsValue)) (q : Rat)
    (hpre : ∀ p ∈ pre, propNoErr rq fields p)
    (hl : List.lookup k fields = some (.num q))
    (hk : kindMatches c.kind (.num q) = true) (he : c.enum = none)
    (hb : boundsOK c.minimum c.maximum q = false) :
    validate (sObj (pre ++ (k, c) :: rest) rq) (.obj fields) =
      .error (.outOfRange [k] c.minimum c.maximum) ∧
    ∀ (r : Registry) (creq : CallRequest) (d : ToolDescriptor),
      r.find? (fun d' => d'.name == creq.toolName) = some d →
      d.parameterSchema = sObj (pre ++ (k, c) :: rest) rq →
      creq.arguments = fields →
      Dispatcher.call r creq = .error .invalidArguments
        ((VErr.outOfRange [k] c.minimum c.maximum).message) := by
  have hhead : validateProps ((k, c) :: rest) rq fields =
      .error ((VErr.outOfRange [] c.minimum c.maximum).prep k) :=
    propsErrHead c rest rq hl (validate_num_err hk he hb)
  have hprops : validateProps (pre ++ (k, c) :: rest) rq fields =
      .error (.outOfRange [k] c.minimum c.maximum) :=
    propsErrPre pre ((k, c) :: rest) rq fields
      ((VErr.outOfRange [] c.minimum c.maximum).prep k) hpre hhead
  have hval : validate (sObj (pre ++ (k, c) :: rest) rq) (.obj fields) =
      .error (.outOfRange [k] c.minimum c.maximum) := by
    rw [sObj, validate_obj]
    rw [if_pos (show kindMatches SchemaKind.object (JsValue.obj fields) =
      true from rfl)]
    rw [if_pos (show (match (none : Option (List JsValue)) with
      | some es => es.any (jsEq (JsValue.obj fields))
      | none => true) = true from rfl)]
    rw [hprops]
  refine ⟨hval, ?_⟩
  intro r creq d hfind hschema hargs
  have hv : validate d.parameterSchema (.obj creq.arguments) =
      .error (.outOfRange [k] c.minimum c.maximum) := by
    rw [hschema, hargs]
    exact hval
  exact dispatchInvalid hfind hv

theorem claim_C4_witness :
    validate part000GenerateImage.parameters
      (.obj [("prompt", .str "cat"), ("n", .num 15)]) =
      .error (.outOfRange ["n"] (some 1) (some 10)) ∧
    Dispatcher.call [moduleDescriptor part000GenerateImage stubUrlHandler]
      ⟨"GenerateImage", [("prompt", .str "cat"), ("n", .num 15)]⟩ =
      .error .invalidArguments "OutOfRange: n" := by
  have h := claim_C4
    [("prompt", sStr),
     ("model", sStrE ["dall-e-2", "dall-e-3", "gpt-image-1"] "gpt-image-1")]
    [("quality", sStrE ["standard", "hd", "auto"] "auto"),
     ("response_format", sStrE ["url", "b64_json"] "url"),
     ("size", sStrE ["256x256", "512x512", "1024x1024", "1792x1024",
        "1024x1792"] "1024x1024"),
     ("style", sStrE ["vivid", "natural"] "vivid"),
     ("user", sStr),
     ("background", sStrE ["transparent", "opaque", "auto"] "auto"),
     ("moderation", sStrE ["low", "auto"] "auto"),
     ("output_compression", sIntR 0 100 100),
     ("output_format", sStrE ["png", "jpeg", "webp"] "png")]
    "n" (sIntR 1 10 1) ["prompt"]
    [("prompt", .str "cat"), ("n", .num 15)] 15
    (by
      intro p hp
      fin_cases hp
      · exact ⟨.str "cat", rfl⟩
      · exact (by decide : "model" ∉ ["prompt"]))
    rfl rfl rfl rfl
  exact ⟨h.1, h.2 [moduleDescriptor part000GenerateImage stubUrlHandler]
    ⟨"GenerateImage", [("prompt", .str "cat"), ("n", .num 15)]⟩
    (moduleDescriptor part000GenerateImage stubUrlHandler) rfl rfl rfl⟩

theorem claim_C4_counterexample :
    boundsOK (some 1) (some 10) 15 = false ∧
    validate part000GenerateImage.parameters (.obj [("n", .num 15)]) =
      .error (.missingField ["prompt"]) ∧
    ∀ p lo hi, VErr.missingField ["prompt"] ≠ VErr.outOfRange p lo hi :=
  ⟨rfl, rfl, fun _ _ _ h => VErr.noConfusion h⟩

/-- C5 (amended): a successful validation returns the argument object
with every omitted defaulted field bound to its declared default and all
other fields structurally unchanged (`normSpec`, written from the spec's
words, applied at every depth); and for a well-formed schema — property
keys distinct, container nodes without enums, defaults that satisfy
their own node — validation is idempotent on its own output. -/
theorem claim_C5 (s : SchemaNode) (v out : JsValue)
    (h : validate s v = .ok out) :
    out = normSpec s v ∧ (schemaWF s → validate s out = .ok out) :=
  ⟨validateA (s.size + v.size) s v out (le_refl _) h,
   fun hwf => validateB (s.size + v.size) s v out (le_refl _) hwf h⟩

theorem claim_C5_witness :
    (JsValue.obj [("prompt", .str "cat"), ("model", .str "photon-flash-1"),
       ("aspect_ratio", .str "16:9")]) =
      normSpec lumaGenerateImage.parameters (.obj [("prompt", .str "cat")]) ∧
    validate lumaGenerateImage.parameters
      (.obj [("prompt", .str "cat"), ("model", .str "photon-flash-1"),
        ("aspect_ratio", .str "16:9")]) =
      .ok (.obj [("prompt", .str "cat"), ("model", .str "photon-flash-1"),
        ("aspect_ratio", .str "16:9")]) := by
  have h := claim_C5 lumaGenerateImage.parameters
    (.obj [("prompt", .str "cat")])
    (.obj [("prompt", .str "cat"), ("model", .str "photon-flash-1"),
      ("aspect_ratio", .str "16:9")]) rfl
  exact ⟨h.1, h.2 rfl⟩

theorem claim_C5_counterexample :
    validate defaultOutOfRangeSchema (.obj []) =
      .ok (.obj [("c", .num 0)]) ∧
    validate defaultOutOfRangeSchema (.obj [("c", .num 0)]) =
      .error (.outOfRange ["c"] (some 1) (some 10)) :=
  ⟨rfl, rfl⟩

/-- C9: in every shipped tool module, each parameter with a declared
schema `default` is destructured by the handler with an equal default,
and an invocation omitting the parameter binds it to that same value
whether the handler receives the raw arguments or the validator's
normalized output. -/
theorem claim_C9 (m : ToolModule) (hm : m ∈ allToolModules) (k : String)
    (c : SchemaNode) (d : JsValue) (args : List (String × JsValue))
    (hmem : (k, c) ∈ m.parameters.properties) (hd : c.dflt = some d) :
    List.lookup k m.pattern = some (some d) ∧
    (List.lookup k args = none →
      List.lookup k (boundArgs m.pattern args) = some (some d) ∧
      ∀ out, validate m.parameters (.obj args) = .ok out →
        ∃ fs, out = .obj fs ∧
          List.lookup k (boundArgs m.pattern fs) = some (some d)) := by
  have hpat : List.lookup k m.pattern = some (some d) :=
    patternDefaults hm hmem hd
  refine ⟨hpat, ?_⟩
  intro habs
  constructor
  · simp [lookup_boundArgs, hpat, habs]
  · intro out hok
    have hA : out = normSpec m.parameters (.obj args) :=
      validateA (m.parameters.size + (JsValue.obj args).size) _ _ _
        (le_refl _) hok
    rw [normSpec_obj] at hA
    refine ⟨_, hA, ?_⟩
    have hNodup := schemaWF_nodup (schemaWF_of_module hm)
    have hlp : List.lookup k m.parameters.properties = some c :=
      lookup_of_mem_nodup hNodup hmem
    have hfs : List.lookup k
        (normFields normSpec m.parameters.properties args args ++
         fillDefaults m.parameters.properties args) = some d := by
      simp [lookup_append, lookup_normFields, habs,
        lookup_fillDefaults hNodup, hlp, hd]
    simp [lookup_boundArgs, hpat, hfs]

theorem claim_C9_witness :
    List.lookup "model" lumaGenerateImage.pattern =
      some (some (.str "photon-flash-1")) ∧
    List.lookup "model"
      (boundArgs lumaGenerateImage.pattern [("prompt", .str "cat")]) =
      some (some (.str "photon-flash-1")) ∧
    List.lookup "model"
      (boundArgs lumaGenerateImage.pattern
        [("prompt", .str "cat"), ("model", .str "photon-flash-1"),
         ("aspect_ratio", .str "16:9")]) =
      some (some (.str "photon-flash-1")) := by
  have h := claim_C9 lumaGenerateImage
    (by simp [allToolModules]) "model"
    (sStrE ["photon-1", "photon-flash-1"] "photon-flash-1")
    (.str "photon-flash-1") [("prompt", .str "cat")]
    (List.mem_cons_of_mem _ (List.mem_cons_self _ _)) rfl
  obtain ⟨h1, h2⟩ := h
  obtain ⟨h3, h4⟩ := h2 rfl
  obtain ⟨fs, hfs, h5⟩ := h4
    (.obj [("prompt", .str "cat"), ("model", .str "photon-flash-1"),
      ("aspect_ratio", .str "16:9")]) rfl
  injection hfs with hfs2
  rw [← hfs2] at h5
  exact ⟨h1, h3, h5⟩

end MediaMcp
